import Mathlib

/-!
Verification development for the fapiao invoice-extraction tool.

The repository's core is `fapiao_gui.py`: regex-cascade extractors for the
invoice amount, the invoice number and the buyer/seller identity, plus the
batch worker (`WorkerThread.run`) that walks a directory, deduplicates by
invoice number and aggregates totals.

This file gives a shallow embedding of that core:
* a small backtracking regex engine (`Re`, `matchRe`, `findall1`, …) that
  models the Python `re` semantics used by the source (leftmost match,
  greedy/lazy repetition priority, `re.findall` scanning);
* the three extractors and the batch loop, transliterated pattern by
  pattern and branch by branch from the source;
* theorems settling the frozen claims about this code.

Modelling conventions: page text already extracted from the PDF (the input
collaborator of the spec) is the extractors' input; monetary amounts are
exact integer cents (`Nat`), which models `decimal.Decimal` values with
two fractional digits without any rounding; `\d` is `[0-9]`; `\s` is the
ASCII whitespace set; word characters (for `\b`) are ASCII alphanumerics,
the underscore and CJK ideographs.
-/

namespace Fapiao

/-- Whitespace as matched by `\s` on the texts handled by the tool. -/
def isSpaceChar (c : Char) : Bool :=
  c = ' ' || c = '\t' || c = '\n' || c = '\r' || c = '\x0b' || c = '\x0c'

/-- Word characters for `\b`: ASCII alphanumerics, underscore, CJK ideographs. -/
def isWordChar (c : Char) : Bool :=
  c.isAlphanum || c = '_' || (0x4E00 ≤ c.toNat && c.toNat ≤ 0x9FFF)

/-- Python `str.strip()`: drop whitespace from both ends. -/
def pyStrip (s : List Char) : List Char :=
  ((s.dropWhile isSpaceChar).reverse.dropWhile isSpaceChar).reverse

/-- Substring containment, as Python's `in` on strings. -/
def isSubstr (n : List Char) : List Char → Bool
  | [] => n.isPrefixOf []
  | c :: t => n.isPrefixOf (c :: t) || isSubstr n t

/-- Python `str.split(sep)` for a one-character separator. -/
def pySplit (sep : Char) : List Char → List (List Char)
  | [] => [[]]
  | c :: t =>
    if c = sep then [] :: pySplit sep t
    else match pySplit sep t with
      | [] => [[c]]
      | p :: ps => (c :: p) :: ps

/-- Digits of a numeral string read as a natural number, as `Decimal` does. -/
def natOfDigits (s : List Char) : Nat :=
  s.foldl (fun n c => n * 10 + (c.toNat - 48)) 0

/-- Captured groups of one regex match: pairs of group index and captured text. -/
abbrev Caps := List (Nat × List Char)

/-- First capture recorded for group `i` (groups are captured once per match
in every pattern of the source). -/
def capGet (cs : Caps) (i : Nat) : List Char :=
  match cs.find? (fun x => x.1 = i) with
  | some x => x.2
  | none => []

/-- Regex abstract syntax covering the constructs used by the source's patterns. -/
inductive Re where
  /-- single-character class given by a predicate -/
  | pred (p : Char → Bool)
  /-- empty regex -/
  | eps
  /-- concatenation -/
  | seq (a b : Re)
  /-- alternation, left branch preferred -/
  | alt (a b : Re)
  /-- counted repetition `{lo,hi}` (`hi = none` unbounded); `lz` selects lazy
  matching; every repetition body in the source consumes at least one
  character, so each iteration is required to make progress -/
  | rep (a : Re) (lo : Nat) (hi : Option Nat) (lz : Bool)
  /-- capturing group number `i` -/
  | grp (i : Nat) (a : Re)
  /-- negative lookbehind with fixed-width alternatives (outermost-first) -/
  | nlb (alts : List (List (Char → Bool)))
  /-- negative lookahead for a single-character class -/
  | nla (p : Char → Bool)
  /-- word boundary `\b` -/
  | wordB
  /-- end of input `$` (also immediately before a final newline) -/
  | eol

/-- Does a fixed-width lookbehind alternative match the characters just before
the current position?  `pre` is the consumed prefix in reverse order. -/
def lbMatch (ps : List (Char → Bool)) (pre : List Char) : Bool :=
  decide (ps.length ≤ pre.length) &&
    (ps.reverse.zip pre).all (fun x => x.1 x.2)

/-- Word-boundary test between the reversed consumed prefix and the remaining
input. -/
def atBoundary (pre inp : List Char) : Bool :=
  let l := match pre with | [] => false | c :: _ => isWordChar c
  let r := match inp with | [] => false | c :: _ => isWordChar c
  l != r

/-- Structural size of a regex, used as (part of) the fuel bound.  For
`rep` it dominates the sizes of all its unfoldings. -/
def reSize : Re → Nat
  | .pred _ => 1
  | .eps => 1
  | .seq a b => reSize a + reSize b + 1
  | .alt a b => reSize a + reSize b + 1
  | .rep a lo hi _ => reSize a + lo + (match hi with | some n => n + 1 | none => 0) + 1
  | .grp _ a => reSize a + 1
  | .nlb _ => 1
  | .nla _ => 1
  | .wordB => 1
  | .eol => 1

theorem reSize_pos (r : Re) : 1 ≤ reSize r := by
  cases r <;> simp [reSize] <;> omega

theorem reSize_rep_shrink (a : Re) (lo : Nat) (hi : Option Nat) (lz : Bool) :
    reSize (.rep a (lo - 1) (hi.map (· - 1)) lz) ≤ reSize (.rep a lo hi lz) := by
  cases hi <;> simp [reSize] <;> omega

theorem flatMapCongr {α β : Type} {l : List α} {f g : α → List β}
    (h : ∀ a ∈ l, f a = g a) : l.flatMap f = l.flatMap g := by
  induction l with
  | nil => rfl
  | cons x xs ih =>
    simp only [List.flatMap_cons]
    rw [h x (by simp), ih (fun a ha => h a (by simp [ha]))]

/-- Backtracking matcher, structurally recursive on an explicit fuel (so that
it reduces in the kernel); `matchRe` below instantiates the fuel with a bound
that `matchReF_irrel` proves sufficient.  `pre` is the already-consumed text
in reverse order (needed by lookbehind and `\b`), `inp` the remaining input.
The result lists every way the regex can match a prefix of `inp`, highest
matching priority first (Python semantics: left alternative first, greedy
repetition longest-first, lazy repetition shortest-first).  Each result is
the extended reversed prefix, the remaining input and the captures. -/
def matchReF : Nat → Re → List Char → List Char → List (List Char × List Char × Caps)
  | 0, _, _, _ => []
  | _ + 1, .pred p, pre, inp =>
    match inp with
    | [] => []
    | c :: cs => if p c then [(c :: pre, cs, [])] else []
  | _ + 1, .eps, pre, inp => [(pre, inp, [])]
  | fuel + 1, .seq a b, pre, inp =>
    (matchReF fuel a pre inp).flatMap (fun x =>
      if x.2.1.length ≤ inp.length then
        (matchReF fuel b x.1 x.2.1).map (fun y => (y.1, y.2.1, x.2.2 ++ y.2.2))
      else [])
  | fuel + 1, .alt a b, pre, inp => matchReF fuel a pre inp ++ matchReF fuel b pre inp
  | fuel + 1, .grp i a, pre, inp =>
    (matchReF fuel a pre inp).map (fun x =>
      (x.1, x.2.1, x.2.2 ++ [(i, inp.take (inp.length - x.2.1.length))]))
  | _ + 1, .nlb alts, pre, inp =>
    if alts.any (fun ps => lbMatch ps pre) then [] else [(pre, inp, [])]
  | _ + 1, .nla p, pre, inp =>
    match inp with
    | [] => [(pre, inp, [])]
    | c :: _ => if p c then [] else [(pre, inp, [])]
  | _ + 1, .wordB, pre, inp => if atBoundary pre inp then [(pre, inp, [])] else []
  | _ + 1, .eol, pre, inp =>
    if inp = [] ∨ inp = ['\n'] then [(pre, inp, [])] else []
  | fuel + 1, .rep a lo hi lz, pre, inp =>
    if lz then
      (if lo = 0 then [(pre, inp, [])] else []) ++
        (if hi = some 0 then [] else
          (matchReF fuel a pre inp).flatMap (fun x =>
            if x.2.1.length < inp.length then
              (matchReF fuel (.rep a (lo - 1) (hi.map (· - 1)) lz) x.1 x.2.1).map
                (fun y => (y.1, y.2.1, x.2.2 ++ y.2.2))
            else []))
    else
      (if hi = some 0 then [] else
        (matchReF fuel a pre inp).flatMap (fun x =>
          if x.2.1.length < inp.length then
            (matchReF fuel (.rep a (lo - 1) (hi.map (· - 1)) lz) x.1 x.2.1).map
              (fun y => (y.1, y.2.1, x.2.2 ++ y.2.2))
          else [])) ++
      (if lo = 0 then [(pre, inp, [])] else [])

/-- The matcher with its canonical fuel. -/
def matchRe (r : Re) (pre inp : List Char) : List (List Char × List Char × Caps) :=
  matchReF (inp.length + reSize r) r pre inp

theorem matchReF_irrel (f1 : Nat) : ∀ (f2 : Nat) (r : Re) (pre inp : List Char),
    inp.length + reSize r ≤ f1 → inp.length + reSize r ≤ f2 →
    matchReF f1 r pre inp = matchReF f2 r pre inp := by
  induction f1 with
  | zero =>
    intro f2 r pre inp h1 _
    have := reSize_pos r
    omega
  | succ g1 ih =>
    intro f2 r pre inp h1 h2
    cases f2 with
    | zero =>
      have := reSize_pos r
      omega
    | succ g2 =>
      cases r with
      | pred p => rfl
      | eps => rfl
      | nlb alts => rfl
      | nla p => rfl
      | wordB => rfl
      | eol => rfl
      | seq a b =>
        show (matchReF g1 a pre inp).flatMap _ = (matchReF g2 a pre inp).flatMap _
        have hsz := reSize_pos b
        have ha : matchReF g1 a pre inp = matchReF g2 a pre inp := by
          apply ih <;> (simp only [reSize] at h1 h2 ⊢; omega)
        rw [ha]
        apply flatMapCongr
        intro x _
        by_cases hx : x.2.1.length ≤ inp.length
        · simp only [hx, if_pos]
          have hb : matchReF g1 b x.1 x.2.1 = matchReF g2 b x.1 x.2.1 := by
            apply ih <;> (simp only [reSize] at h1 h2 ⊢; omega)
          rw [hb]
        · simp only [hx, if_neg, not_false_iff]
      | alt a b =>
        show matchReF g1 a pre inp ++ matchReF g1 b pre inp
            = matchReF g2 a pre inp ++ matchReF g2 b pre inp
        have ha : matchReF g1 a pre inp = matchReF g2 a pre inp := by
          apply ih <;> (simp only [reSize] at h1 h2 ⊢; omega)
        have hb : matchReF g1 b pre inp = matchReF g2 b pre inp := by
          apply ih <;> (simp only [reSize] at h1 h2 ⊢; omega)
        rw [ha, hb]
      | grp i a =>
        show (matchReF g1 a pre inp).map _ = (matchReF g2 a pre inp).map _
        have ha : matchReF g1 a pre inp = matchReF g2 a pre inp := by
          apply ih <;> (simp only [reSize] at h1 h2 ⊢; omega)
        rw [ha]
      | rep a lo hi lz =>
        have ha : matchReF g1 a pre inp = matchReF g2 a pre inp := by
          apply ih <;> (simp only [reSize] at h1 h2 ⊢; omega)
        have hdeep :
            (if hi = some 0 then [] else
              (matchReF g1 a pre inp).flatMap (fun x =>
                if x.2.1.length < inp.length then
                  (matchReF g1 (.rep a (lo - 1) (hi.map (· - 1)) lz) x.1 x.2.1).map
                    (fun y => (y.1, y.2.1, x.2.2 ++ y.2.2))
                else []))
            = (if hi = some 0 then [] else
              (matchReF g2 a pre inp).flatMap (fun x =>
                if x.2.1.length < inp.length then
                  (matchReF g2 (.rep a (lo - 1) (hi.map (· - 1)) lz) x.1 x.2.1).map
                    (fun y => (y.1, y.2.1, x.2.2 ++ y.2.2))
                else [])) := by
          by_cases hh : hi = some 0
          · simp [hh]
          · simp only [hh, if_neg, not_false_iff]
            rw [ha]
            apply flatMapCongr
            intro x _
            by_cases hx : x.2.1.length < inp.length
            · simp only [hx, if_pos]
              have hshrink := reSize_rep_shrink a lo hi lz
              have hr : matchReF g1 (.rep a (lo - 1) (hi.map (· - 1)) lz) x.1 x.2.1
                  = matchReF g2 (.rep a (lo - 1) (hi.map (· - 1)) lz) x.1 x.2.1 := by
                apply ih <;> omega
              rw [hr]
            · simp only [hx, if_neg, not_false_iff]
        simp only [matchReF]
        rw [hdeep]

/-- Any sufficient fuel computes `matchRe`. -/
theorem matchReF_eq (fuel : Nat) (r : Re) (pre inp : List Char)
    (h : inp.length + reSize r ≤ fuel) : matchReF fuel r pre inp = matchRe r pre inp :=
  matchReF_irrel fuel (inp.length + reSize r) r pre inp h (Nat.le_refl _)

/-! Step equations for `matchRe`, the interface all structural proofs use. -/

theorem matchRe_pred (p : Char → Bool) (pre inp : List Char) :
    matchRe (.pred p) pre inp =
      match inp with
      | [] => []
      | c :: cs => if p c then [(c :: pre, cs, [])] else [] := by
  cases inp <;> rfl

theorem matchRe_eps (pre inp : List Char) : matchRe .eps pre inp = [(pre, inp, [])] := rfl

theorem matchRe_seq (a b : Re) (pre inp : List Char) :
    matchRe (.seq a b) pre inp =
      (matchRe a pre inp).flatMap (fun x =>
        if x.2.1.length ≤ inp.length then
          (matchRe b x.1 x.2.1).map (fun y => (y.1, y.2.1, x.2.2 ++ y.2.2))
        else []) := by
  show (matchReF (inp.length + reSize (.seq a b) - 1) a pre inp).flatMap _ = _
  have hb := reSize_pos b
  have hA := reSize_pos a
  rw [matchReF_eq _ a pre inp (by simp only [reSize]; omega)]
  apply flatMapCongr
  intro x _
  by_cases hx : x.2.1.length ≤ inp.length
  · simp only [hx, if_pos]
    rw [matchReF_eq _ b x.1 x.2.1 (by show x.2.1.length + reSize b ≤ inp.length + (reSize a + reSize b); omega)]
  · simp only [hx, if_neg, not_false_iff]

theorem matchRe_alt (a b : Re) (pre inp : List Char) :
    matchRe (.alt a b) pre inp = matchRe a pre inp ++ matchRe b pre inp := by
  show matchReF (inp.length + reSize (.alt a b) - 1) a pre inp ++
      matchReF (inp.length + reSize (.alt a b) - 1) b pre inp = _
  have hb := reSize_pos b
  have hA := reSize_pos a
  rw [matchReF_eq _ a pre inp (by simp only [reSize]; omega),
      matchReF_eq _ b pre inp (by simp only [reSize]; omega)]

theorem matchRe_grp (i : Nat) (a : Re) (pre inp : List Char) :
    matchRe (.grp i a) pre inp =
      (matchRe a pre inp).map (fun x =>
        (x.1, x.2.1, x.2.2 ++ [(i, inp.take (inp.length - x.2.1.length))])) := by
  show (matchReF (inp.length + reSize (.grp i a) - 1) a pre inp).map _ = _
  rw [matchReF_eq _ a pre inp (by simp only [reSize]; omega)]

theorem matchRe_nlb (alts : List (List (Char → Bool))) (pre inp : List Char) :
    matchRe (.nlb alts) pre inp =
      if alts.any (fun ps => lbMatch ps pre) then [] else [(pre, inp, [])] := rfl

theorem matchRe_nla (p : Char → Bool) (pre inp : List Char) :
    matchRe (.nla p) pre inp =
      match inp with
      | [] => [(pre, inp, [])]
      | c :: _ => if p c then [] else [(pre, inp, [])] := by
  cases inp <;> rfl

theorem matchRe_wordB (pre inp : List Char) :
    matchRe .wordB pre inp = if atBoundary pre inp then [(pre, inp, [])] else [] := rfl

theorem matchRe_eol (pre inp : List Char) :
    matchRe .eol pre inp = if inp = [] ∨ inp = ['\n'] then [(pre, inp, [])] else [] := rfl

/-- Stop and continue branches of a repetition, in terms of `matchRe`. -/
def repStop (lo : Nat) (pre inp : List Char) : List (List Char × List Char × Caps) :=
  if lo = 0 then [(pre, inp, [])] else []

def repDeeper (a : Re) (lo : Nat) (hi : Option Nat) (lz : Bool)
    (pre inp : List Char) : List (List Char × List Char × Caps) :=
  if hi = some 0 then [] else
    (matchRe a pre inp).flatMap (fun x =>
      if x.2.1.length < inp.length then
        (matchRe (.rep a (lo - 1) (hi.map (· - 1)) lz) x.1 x.2.1).map
          (fun y => (y.1, y.2.1, x.2.2 ++ y.2.2))
      else [])

theorem matchRe_rep (a : Re) (lo : Nat) (hi : Option Nat) (lz : Bool)
    (pre inp : List Char) :
    matchRe (.rep a lo hi lz) pre inp =
      if lz then repStop lo pre inp ++ repDeeper a lo hi lz pre inp
      else repDeeper a lo hi lz pre inp ++ repStop lo pre inp := by
  have hA := reSize_pos a
  have hrep := reSize_pos (.rep a lo hi lz)
  have hsz : reSize a + 1 ≤ reSize (.rep a lo hi lz) := by
    cases hi <;> simp only [reSize] <;> omega
  have hsucc : inp.length + reSize (.rep a lo hi lz)
      = (inp.length + reSize (.rep a lo hi lz) - 1) + 1 := by omega
  have hdeep :
      (if hi = some 0 then [] else
        (matchReF (inp.length + reSize (.rep a lo hi lz) - 1) a pre inp).flatMap (fun x =>
          if x.2.1.length < inp.length then
            (matchReF (inp.length + reSize (.rep a lo hi lz) - 1)
                (.rep a (lo - 1) (hi.map (· - 1)) lz) x.1 x.2.1).map
              (fun y => (y.1, y.2.1, x.2.2 ++ y.2.2))
          else []))
      = repDeeper a lo hi lz pre inp := by
    unfold repDeeper
    by_cases hh : hi = some 0
    · simp [hh]
    · simp only [hh, if_neg, not_false_iff]
      rw [matchReF_eq _ a pre inp (by omega)]
      apply flatMapCongr
      intro x _
      by_cases hx : x.2.1.length < inp.length
      · simp only [hx, if_pos]
        have hshrink := reSize_rep_shrink a lo hi lz
        rw [matchReF_eq _ _ x.1 x.2.1 (by omega)]
      · simp only [hx, if_neg, not_false_iff]
  unfold matchRe
  rw [hsucc]
  simp only [matchReF]
  rw [hdeep]
  unfold repStop
  rfl

/-- Leftmost match: try the regex at the current position and, on failure,
advance one character.  Returns the input at the match start, the reversed
prefix and remaining input at the match end, and the captures.  Structurally
recursive on a fuel; `searchAux` instantiates a sufficient bound. -/
def searchAuxF (r : Re) : Nat → List Char → List Char →
    Option (List Char × List Char × List Char × Caps)
  | 0, _, _ => none
  | fuel + 1, pre, inp =>
    match matchRe r pre inp with
    | x :: _ => some (inp, x.1, x.2.1, x.2.2)
    | [] =>
      match inp with
      | [] => none
      | c :: cs => searchAuxF r fuel (c :: pre) cs

def searchAux (r : Re) (pre inp : List Char) :
    Option (List Char × List Char × List Char × Caps) :=
  searchAuxF r (inp.length + 1) pre inp

/-- One-step unfolding of `searchAux`. -/
theorem searchAux_step (r : Re) (pre inp : List Char) :
    searchAux r pre inp =
      (match matchRe r pre inp with
       | x :: _ => some (inp, x.1, x.2.1, x.2.2)
       | [] =>
         match inp with
         | [] => none
         | c :: cs => searchAux r (c :: pre) cs) := by
  cases inp with
  | nil =>
    cases hm : matchRe r pre [] with
    | nil =>
      simp only [searchAux, searchAuxF]
      rw [hm]
    | cons x rest =>
      simp only [searchAux, searchAuxF]
      rw [hm]
  | cons c cs =>
    cases hm : matchRe r pre (c :: cs) with
    | nil =>
      simp only [searchAux, searchAuxF]
      rw [hm]
    | cons x rest =>
      simp only [searchAux, searchAuxF]
      rw [hm]

/-- All non-overlapping matches from left to right, as `re.findall`: after a
match, scanning resumes at its end (one character further for an empty
match).  Returns the capture lists of the matches in order.  Structurally
recursive on a fuel; `findallAux` instantiates a sufficient bound. -/
def findallAuxF (r : Re) : Nat → List Char → List Char → List Caps
  | 0, _, _ => []
  | fuel + 1, pre, inp =>
    match searchAux r pre inp with
    | none => []
    | some (_, pre2, rem, caps) =>
      caps ::
        (if rem.length < inp.length then findallAuxF r fuel pre2 rem
         else
           match rem with
           | [] => []
           | c :: cs =>
             if cs.length < inp.length then findallAuxF r fuel (c :: pre2) cs
             else [])

def findallAux (r : Re) (pre inp : List Char) : List Caps :=
  findallAuxF r (inp.length + 1) pre inp

theorem findallAuxF_irrel (r : Re) (f1 : Nat) :
    ∀ (f2 : Nat) (pre inp : List Char), inp.length + 1 ≤ f1 → inp.length + 1 ≤ f2 →
    findallAuxF r f1 pre inp = findallAuxF r f2 pre inp := by
  induction f1 with
  | zero => intro f2 pre inp h1 _; omega
  | succ g1 ih =>
    intro f2 pre inp h1 h2
    cases f2 with
    | zero => omega
    | succ g2 =>
      simp only [findallAuxF]
      cases hs : searchAux r pre inp with
      | none => rfl
      | some x =>
        obtain ⟨start, pre2, rem, caps⟩ := x
        simp only []
        by_cases hr : rem.length < inp.length
        · simp only [hr, if_pos]
          rw [ih g2 pre2 rem (by omega) (by omega)]
        · simp only [hr, if_neg, not_false_iff]
          cases rem with
          | nil => rfl
          | cons c cs =>
            by_cases hc : cs.length < inp.length
            · simp only [hc, if_pos]
              rw [ih g2 (c :: pre2) cs (by omega) (by omega)]
            · simp only [hc, if_neg, not_false_iff]

/-- One-step unfolding of `findallAux`. -/
theorem findallAux_step (r : Re) (pre inp : List Char) :
    findallAux r pre inp =
      match searchAux r pre inp with
      | none => []
      | some (_, pre2, rem, caps) =>
        caps ::
          (if rem.length < inp.length then findallAux r pre2 rem
           else
             match rem with
             | [] => []
             | c :: cs =>
               if cs.length < inp.length then findallAux r (c :: pre2) cs
               else []) := by
  show (match searchAux r pre inp with
    | none => []
    | some (_, pre2, rem, caps) => caps ::
        (if rem.length < inp.length then findallAuxF r inp.length pre2 rem
         else match rem with
           | [] => []
           | c :: cs => if cs.length < inp.length then findallAuxF r inp.length (c :: pre2) cs
             else [])) = _
  cases hs : searchAux r pre inp with
  | none => rfl
  | some x =>
    obtain ⟨start, pre2, rem, caps⟩ := x
    simp only []
    by_cases hr : rem.length < inp.length
    · simp only [hr, if_pos]
      rw [findallAuxF_irrel r inp.length (rem.length + 1) pre2 rem (by omega) (by omega)]
      rfl
    · simp only [hr, if_neg, not_false_iff]
      cases rem with
      | nil => rfl
      | cons c cs =>
        by_cases hc : cs.length < inp.length
        · simp only [hc, if_pos]
          rw [findallAuxF_irrel r inp.length (cs.length + 1) (c :: pre2) cs (by omega) (by omega)]
          rfl
        · simp only [hc, if_neg, not_false_iff]

/-- `re.findall` for a pattern with a single capturing group. -/
def findall1 (r : Re) (t : List Char) : List (List Char) :=
  (findallAux r [] t).map (fun cs => capGet cs 1)

/-- `re.findall` for a pattern with several capturing groups: the raw capture
lists of each match. -/
def findallC (r : Re) (t : List Char) : List Caps :=
  findallAux r [] t

/-- `re.search`, returning the whole matched text (`group(0)`). -/
def search0 (r : Re) (t : List Char) : Option (List Char) :=
  match searchAux r [] t with
  | none => none
  | some (start, _, rem, _) => some (start.take (start.length - rem.length))

/-- `re.search`, returning the text of capturing group 1. -/
def search1 (r : Re) (t : List Char) : Option (List Char) :=
  match searchAux r [] t with
  | none => none
  | some (_, _, _, caps) => some (capGet caps 1)

/-! ### Pattern-building helpers -/

/-- Literal single character. -/
def chRe (c : Char) : Re := .pred (fun x => x = c)

/-- Literal string. -/
def strRe (s : List Char) : Re := s.foldr (fun c r => .seq (chRe c) r) .eps

/-- Character class given by an explicit list. -/
def clsRe (l : List Char) : Re := .pred (fun c => l.contains c)

/-- `\d` -/
def dRe : Re := .pred Char.isDigit

/-- `\s` -/
def sRe : Re := .pred isSpaceChar

/-- `.` (any character except a newline) -/
def dotRe : Re := .pred (fun c => c ≠ '\n')

/-- Concatenation of a pattern list. -/
def reSeq (l : List Re) : Re := l.foldr .seq .eps

/-- greedy `*` -/
def star (r : Re) : Re := .rep r 0 none false

/-- lazy `*?` -/
def starL (r : Re) : Re := .rep r 0 none true

/-- greedy `+` -/
def plus (r : Re) : Re := .rep r 1 none false

/-- `?` -/
def opt (r : Re) : Re := .rep r 0 (some 1) false

/-- greedy `{m,n}` -/
def repN (r : Re) (m n : Nat) : Re := .rep r m (some n) false

/-- `.*?` -/
def dotStarL : Re := starL dotRe

/-- `[：:]` (both colon variants, ubiquitous in the source's patterns) -/
def colonRe : Re := clsRe ['：', ':']

/-- `\s*` -/
def wsStar : Re := star sRe

/-- `[0-9A-Z]` as used by the tax-identifier patterns -/
def upAlnum : Re := .pred (fun c => c.isDigit || (65 ≤ c.toNat && c.toNat ≤ 90))

/-! ### AmountExtractor (`extract_amount_from_pdf`) -/

/-- `str.replace(',', '')` on a captured amount. -/
def stripCommas (s : List Char) : List Char := s.filter (fun c => c ≠ ',')

/-- Value in cents of `Decimal(s)` for a string of shape `[0-9]*\.[0-9]{2}`
(the shape of every comma-stripped capture the source feeds to `Decimal`).
Exact by construction: no rounding can occur. -/
def pyDecimalCents (s : List Char) : Nat :=
  natOfDigits (s.takeWhile (fun c => c ≠ '.')) * 100 +
    natOfDigits ((s.dropWhile (fun c => c ≠ '.')).drop 1)

/-- `\.[0-9]{2}`, the trailing factor every amount-shaped pattern requires. -/
def numTail : Re := .seq (chRe '.') (repN dRe 2 2)

/-- `[0-9,]+\.[0-9]{2}` -/
def numBody : Re := .seq (plus (.pred (fun c => c.isDigit || c = ','))) numTail

/-- `([0-9,]+\.[0-9]{2})` as group `i`. -/
def numG (i : Nat) : Re := .grp i numBody

/-- `[0-9]{1,3}(?:,[0-9]{3})*\.[0-9]{2}` -/
def strictBody : Re :=
  .seq (repN dRe 1 3) (.seq (star (.seq (chRe ',') (repN dRe 3 3))) numTail)

/-- The nine `价税合计` tier-1 patterns, in source order. -/
def amount_patterns : List Re :=
  [ reSeq [strRe "价税合计".data, colonRe, wsStar, opt (chRe '￥'), wsStar, numG 1],
    reSeq [strRe "价税合计".data, dotStarL, strRe "小写".data, colonRe, wsStar,
           opt (chRe '￥'), wsStar, numG 1],
    reSeq [strRe "价税合计".data, dotStarL, chRe '¥', wsStar, numG 1],
    reSeq [strRe "价税合计".data, dotStarL, chRe '￥', wsStar, numG 1],
    reSeq [strRe "价税合计".data, wsStar, numG 1],
    reSeq [strRe "价税合计".data, dotStarL, chRe '(', chRe '¥', wsStar, numG 1, chRe ')'],
    reSeq [strRe "价税合计".data, dotStarL, chRe '(', chRe '￥', wsStar, numG 1, chRe ')'],
    reSeq [strRe "价税合计".data, colonRe, chRe '￥', numG 1],
    reSeq [strRe "价税合计".data, colonRe, chRe '¥', numG 1] ]

/-- Tier-2 table pattern with three captures. -/
def table_pattern1 : Re :=
  reSeq [.alt (reSeq [chRe '合', wsStar, chRe '计']) (reSeq [chRe '小', wsStar, chRe '计']),
         dotStarL, numG 1, dotStarL, numG 2, dotStarL, numG 3]

/-- Tier-2 alternate pattern. -/
def table_pattern2 : Re :=
  reSeq [.alt (strRe "税价合计".data) (strRe "含税合计".data), dotStarL, numG 1]

/-- Tier-3 fallback patterns with a single capture, in source order
(the two-capture amount-plus-tax pattern sits between the third and the
fourth of these and is handled separately). -/
def fb1 : Re := reSeq [chRe '合', clsRe ['计', '總'], strRe "金额".data, colonRe, wsStar,
                       opt (chRe '￥'), wsStar, numG 1]

def fb2 : Re := reSeq [strRe "小写".data, colonRe, wsStar, opt (chRe '￥'), wsStar, numG 1]

def fb3 : Re := reSeq [strRe "（小写）".data, colonRe, wsStar, opt (chRe '￥'), wsStar, numG 1]

/-- `金额[：:]\s*￥?\s*(num).*?税额[：:]\s*￥?\s*(num)` — the one tier that
computes (sum of amount and tax) rather than reads a literal. -/
def fb_sum : Re :=
  reSeq [strRe "金额".data, colonRe, wsStar, opt (chRe '￥'), wsStar, numG 1, dotStarL,
         strRe "税额".data, colonRe, wsStar, opt (chRe '￥'), wsStar, numG 2]

def fb5 : Re :=
  reSeq [strRe "人民币".data, colonRe, wsStar,
         plus (clsRe "零壹贰叁肆伍陆柒捌玖拾佰仟万亿元角分整".data), wsStar,
         opt (clsRe ['(', '（']), opt (chRe '¥'), numG 1]

def fb6 : Re := reSeq [clsRe ['¥', '￥'], wsStar, numG 1]

/-- `(?<!发票号码|\d)([0-9]{1,3}(?:,[0-9]{3})*\.[0-9]{2})(?!\d)` — the source's
last fallback pattern.  Python's `re` rejects this pattern outright
(`re.error: look-behind requires fixed-width pattern`, since the lookbehind
branches have widths 4 and 1), so at run time reaching this pattern raises,
the function's exception handler fires, and `Decimal('0.00')` is returned;
the pattern itself never matches anything.  Kept here to document the dead
code. -/
def fb7 : Re :=
  reSeq [.nlb ["发票号码".data.map (fun c => (fun x => x = c)), [Char.isDigit]],
         .grp 1 strictBody, .nla Char.isDigit]

/-- Tier-4 keyword substrings, in source order. -/
def key_sections : List (List Char) :=
  ["价税合计".data, "税价合计".data, "合计金额".data, "小写".data, "大写".data,
   "人民币".data, "RMB".data, "CHY".data, "CNY".data]

/-- `.{0,50}<section>.{0,100}` -/
def sectionRe (sec : List Char) : Re :=
  reSeq [.rep dotRe 0 (some 50) false, strRe sec, .rep dotRe 0 (some 100) false]

/-- Inner tier-4 number pattern `([0-9]{1,3}(?:,[0-9]{3})*\.[0-9]{2})`. -/
def innerNum : Re := .grp 1 strictBody

/-- Tier 1: first pattern with matches wins; its first match is parsed. -/
def tryAmountPatterns : List Re → List Char → Option Nat
  | [], _ => none
  | p :: ps, t =>
    match findall1 p t with
    | [] => tryAmountPatterns ps t
    | m :: _ => some (pyDecimalCents (stripCommas m))

/-- Tier 2: table rows; for the three-capture pattern the last capture is the
tax-inclusive total. -/
def tryTable (t : List Char) : Option Nat :=
  match findallC table_pattern1 t with
  | c :: _ => some (pyDecimalCents (stripCommas (capGet c 3)))
  | [] =>
    match findall1 table_pattern2 t with
    | m :: _ => some (pyDecimalCents (stripCommas m))
    | [] => none

/-- Tier 3: broader labels; the two-capture pattern sums amount and tax.
If none of the first six fallback patterns match, the loop reaches `fb7`,
whose compilation raises `re.error`; the exception propagates to the
function's outer handler, which returns `Decimal('0.00')`.  `none` here
therefore means "the run ended in the exception handler". -/
def tryFallback (t : List Char) : Option Nat :=
  match findall1 fb1 t with
  | m :: _ => some (pyDecimalCents (stripCommas m))
  | [] =>
  match findall1 fb2 t with
  | m :: _ => some (pyDecimalCents (stripCommas m))
  | [] =>
  match findall1 fb3 t with
  | m :: _ => some (pyDecimalCents (stripCommas m))
  | [] =>
  match findallC fb_sum t with
  | c :: _ =>
    some (pyDecimalCents (stripCommas (capGet c 1)) + pyDecimalCents (stripCommas (capGet c 2)))
  | [] =>
  match findall1 fb5 t with
  | m :: _ => some (pyDecimalCents (stripCommas m))
  | [] =>
  match findall1 fb6 t with
  | m :: _ => some (pyDecimalCents (stripCommas m))
  | [] => none

/-- Tier 4 of the source: for each keyword found, the nearest decimal number
within the surrounding context; a section without a number falls through to
the next keyword.  Dead code at run time: control only reaches this loop
after the tier-3 loop has tried `fb7`, which always raises, so the exception
handler returns `Decimal('0.00')` first.  Kept to document the source. -/
def trySections : List (List Char) → List Char → Option Nat
  | [], _ => none
  | sec :: rest, t =>
    match search0 (sectionRe sec) t with
    | none => trySections rest t
    | some sectText =>
      match search1 innerNum sectText with
      | some m => some (pyDecimalCents (stripCommas m))
      | none => trySections rest t

/-- Model of `extract_amount_from_pdf`, taking the page text the PDF
collaborator extracted (empty when nothing could be read).  Total by
construction: every internal exception of the source (including the
`re.error` raised by `fb7`) is caught by the function's own handler and
becomes the `Decimal('0.00')` sentinel, modelled as the final `0` branch;
no exception ever escapes to the caller. -/
def extract_amount_from_pdf (text : String) : Nat :=
  if text.data = [] then 0
  else
    match tryAmountPatterns amount_patterns text.data with
    | some v => v
    | none =>
      match tryTable text.data with
      | some v => v
      | none =>
        match tryFallback text.data with
        | some v => v
        | none => 0

/-! ### InvoiceNumberExtractor (`extract_invoice_number`) -/

/-- Python `max(matches, key=len)`: first element of maximal length. -/
def maxByLen : List (List Char) → List Char
  | [] => []
  | m :: ms => ms.foldl (fun acc x => if acc.length < x.length then x else acc) m

/-- The eight labeled invoice-number patterns, in source order. -/
def invoice_patterns : List Re :=
  [ reSeq [strRe "发票号码".data, colonRe, wsStar, .grp 1 (.rep dRe 8 (some 30) false)],
    reSeq [strRe "发票号码".data, colonRe, wsStar, .grp 1 (.rep dRe 10 (some 12) false)],
    reSeq [strRe "发票号码".data, wsStar, .grp 1 (.rep dRe 8 (some 30) false)],
    reSeq [chRe 'N', chRe 'o', opt (clsRe ['.', ':']), wsStar,
           .grp 1 (.rep dRe 8 (some 30) false)],
    reSeq [chRe 'N', chRe 'o', opt (clsRe ['.', ':']), wsStar,
           .grp 1 (.rep dRe 10 (some 12) false)],
    reSeq [strRe "号码".data, colonRe, wsStar, .grp 1 (.rep dRe 8 (some 30) false)],
    reSeq [strRe "发票号码：".data, wsStar, .grp 1 (.rep dRe 20 (some 20) false)],
    reSeq [strRe "发票号码：".data, wsStar, .grp 1 (.rep dRe 10 (some 30) false)] ]

/-- `[\(（]?[发票号码No\.:\s：]*[\)）]?\s*(\d{10,30})\b` -/
def general_number_pattern : Re :=
  reSeq [opt (clsRe ['(', '（']),
         star (.pred (fun c =>
           "发票号码No".data.contains c || c = '.' || c = ':' || c = '：' || isSpaceChar c)),
         opt (clsRe [')', '）']), wsStar, .grp 1 (.rep dRe 10 (some 30) false), .wordB]

/-- First pattern with matches wins; its longest match is the result. -/
def tryPatterns : List Re → List Char → Option (List Char)
  | [], _ => none
  | p :: ps, t =>
    match findall1 p t with
    | [] => tryPatterns ps t
    | m :: ms => some (maxByLen (m :: ms))

/-- Model of `extract_invoice_number` on the extracted page text; `""` is the
not-found sentinel. -/
def extract_invoice_number (text : String) : String :=
  match tryPatterns invoice_patterns text.data with
  | some m => ⟨m⟩
  | none =>
    match findall1 general_number_pattern text.data with
    | [] => ""
    | m :: ms => ⟨maxByLen (m :: ms)⟩

/-! ### PartyExtractor (`extract_company_info`) -/

/-- Buyer/seller names and tax identifiers; all default to the empty string. -/
structure CompanyInfo where
  buyer_name : String := ""
  buyer_tax_id : String := ""
  seller_name : String := ""
  seller_tax_id : String := ""
deriving Repr, DecidableEq

/-- `(.*?)` followed by `(?:\s|$)`. -/
def lazyNameG : Re := .seq (.grp 1 (starL dotRe)) (.alt sRe .eol)

/-- `([0-9A-Z]{15,20})` -/
def taxG : Re := .grp 1 (.rep upAlnum 15 (some 20) false)

def buyer_name_patterns : List Re :=
  [ reSeq [strRe "购买方名称".data, colonRe, wsStar, lazyNameG],
    reSeq [strRe "购买方".data, colonRe, wsStar, lazyNameG],
    reSeq [strRe "名称".data, colonRe, wsStar, .grp 1 (starL dotRe),
           .alt sRe (.alt (strRe "购买方".data) .eol)],
    reSeq [strRe "购买方".data, dotStarL, strRe "名称".data, colonRe, wsStar, lazyNameG] ]

def buyer_tax_patterns : List Re :=
  [ reSeq [strRe "购买方".data, dotStarL, strRe "税号".data, colonRe, wsStar, taxG],
    reSeq [strRe "购买方".data, dotStarL, strRe "统一社会信用代码".data, colonRe, wsStar, taxG],
    reSeq [strRe "购买方".data, dotStarL, strRe "纳税人识别号".data, colonRe, wsStar, taxG],
    reSeq [strRe "纳税人识别号".data, colonRe, wsStar, taxG],
    reSeq [strRe "统一社会信用代码/纳税人识别号".data, colonRe, wsStar, taxG],
    reSeq [strRe "统一社会信用代码".data, dotStarL, colonRe, wsStar, taxG] ]

def seller_name_patterns : List Re :=
  [ reSeq [strRe "销售方名称".data, colonRe, wsStar, lazyNameG],
    reSeq [strRe "销售方".data, colonRe, wsStar, lazyNameG],
    reSeq [strRe "销售方".data, dotStarL, strRe "名称".data, colonRe, wsStar, lazyNameG] ]

def seller_tax_patterns : List Re :=
  [ reSeq [strRe "销售方".data, dotStarL, strRe "税号".data, colonRe, wsStar, taxG],
    reSeq [strRe "销售方".data, dotStarL, strRe "统一社会信用代码".data, colonRe, wsStar, taxG],
    reSeq [strRe "销售方".data, dotStarL, strRe "纳税人识别号".data, colonRe, wsStar, taxG] ]

/-- The source's per-field loop: first pattern whose first match strips to a
non-blank string wins. -/
def firstStripped : List Re → List Char → List Char
  | [], _ => []
  | p :: ps, t =>
    match findall1 p t with
    | [] => firstStripped ps t
    | m :: _ => if pyStrip m ≠ [] then pyStrip m else firstStripped ps t

/-- Strategy 1: the four independent direct-label extractions. -/
def strat1 (t : List Char) : CompanyInfo :=
  { buyer_name := ⟨firstStripped buyer_name_patterns t⟩,
    buyer_tax_id := ⟨firstStripped buyer_tax_patterns t⟩,
    seller_name := ⟨firstStripped seller_name_patterns t⟩,
    seller_tax_id := ⟨firstStripped seller_tax_patterns t⟩ }

/-- One line of the strategy-2 scan: a line containing `名称` and an ASCII
colon is split on the colon and routed by the label in its first part. -/
def lineScanStep (r : CompanyInfo) (line : List Char) : CompanyInfo :=
  if isSubstr "名称".data line && isSubstr [':'] line then
    match pySplit ':' line with
    | p0 :: p1 :: _ =>
      if isSubstr "购买方".data p0 then { r with buyer_name := ⟨pyStrip p1⟩ }
      else if isSubstr "销售方".data p0 then { r with seller_name := ⟨pyStrip p1⟩ }
      else r
    | _ => r
  else r

/-- Strategy 2: line scan, run whenever the buyer or the seller name is still
missing. -/
def strat2 (t : List Char) (r : CompanyInfo) : CompanyInfo :=
  if r.buyer_name = "" ∨ r.seller_name = "" then
    (pySplit '\n' t).foldl lineScanStep r
  else r

/-- `统一社会信用代码[/／]?纳税人识别号[:：]?\s*([0-9A-Z]{15,20})` -/
def tax_id_pattern : Re :=
  reSeq [strRe "统一社会信用代码".data, opt (clsRe ['/', '／']), strRe "纳税人识别号".data,
         opt (clsRe [':', '：']), wsStar, taxG]

/-- Strategy 3: combined-label fallback for the tax identifiers. -/
def strat3 (t : List Char) (r : CompanyInfo) : CompanyInfo :=
  if r.buyer_tax_id = "" ∨ r.seller_tax_id = "" then
    match findall1 tax_id_pattern t with
    | [] => r
    | m0 :: rest =>
      if r.buyer_tax_id = "" then { r with buyer_tax_id := ⟨m0⟩ }
      else if r.seller_tax_id = "" then
        match rest with
        | m1 :: _ => { r with seller_tax_id := ⟨m1⟩ }
        | [] => r
      else r
  else r

/-- `名称[：:]\s*(.*?)(?:\s|$)` -/
def special_name_pattern : Re := reSeq [strRe "名称".data, colonRe, wsStar, lazyNameG]

/-- `统一社会信用代码[/／]纳税人识别号[：:]\s*([0-9A-Z]+)` -/
def special_tax_id_pattern : Re :=
  reSeq [strRe "统一社会信用代码".data, clsRe ['/', '／'], strRe "纳税人识别号".data,
         colonRe, wsStar, .grp 1 (plus upAlnum)]

/-- `if not result[f]: result[f] = v.strip()` for each of the four fields. -/
def fillBuyerName (v : List Char) (r : CompanyInfo) : CompanyInfo :=
  if r.buyer_name = "" then { r with buyer_name := ⟨pyStrip v⟩ } else r

def fillSellerName (v : List Char) (r : CompanyInfo) : CompanyInfo :=
  if r.seller_name = "" then { r with seller_name := ⟨pyStrip v⟩ } else r

def fillBuyerTax (v : List Char) (r : CompanyInfo) : CompanyInfo :=
  if r.buyer_tax_id = "" then { r with buyer_tax_id := ⟨pyStrip v⟩ } else r

def fillSellerTax (v : List Char) (r : CompanyInfo) : CompanyInfo :=
  if r.seller_tax_id = "" then { r with seller_tax_id := ⟨pyStrip v⟩ } else r

/-- Strategy 4, name phase: with at least two `名称:` matches, the first
fills the buyer name if empty and the second the seller name if empty. -/
def strat4Names (t : List Char) (r : CompanyInfo) : CompanyInfo :=
  match findall1 special_name_pattern t with
  | n0 :: n1 :: _ => fillSellerName n1 (fillBuyerName n0 r)
  | _ => r

/-- Strategy 4, tax phase: same dual-occurrence rule for the strict
combined-label pattern (slash and colon required). -/
def strat4Tax (t : List Char) (r : CompanyInfo) : CompanyInfo :=
  match findall1 special_tax_id_pattern t with
  | x0 :: x1 :: _ => fillSellerTax x1 (fillBuyerTax x0 r)
  | _ => r

/-- Strategy 4: dual-occurrence fallback, filling still-empty fields from the
first and second matches when there are at least two. -/
def strat4 (t : List Char) (r : CompanyInfo) : CompanyInfo :=
  strat4Tax t (strat4Names t r)

/-- Model of `extract_company_info` on the extracted page text: the four
strategies applied in source order. -/
def extract_company_info (text : String) : CompanyInfo :=
  strat4 text.data (strat3 text.data (strat2 text.data (strat1 text.data)))

/-! ### BatchProcessor and DuplicateTracker (`WorkerThread.run`)

The worker walks the directory, extracts the invoice number and the amount
of each PDF and aggregates results.  The embedding abstracts the filesystem:
a document is its path together with the values the two extractors return on
its text, and the relocation collaborator (`move_duplicate_invoice`) is a
parameter giving the target path of a successful move, `none` on failure. -/

/-- `os.path.basename`. -/
def basename (p : String) : String :=
  ⟨((p.data.reverse.takeWhile (fun c => c ≠ '/')).reverse)⟩

/-- One discovered document: its path and the two extraction outcomes on its
text (invoice number possibly empty, amount in cents, `0` = extraction
failed). -/
structure Doc where
  path : String
  number : String
  amount : Nat
deriving Repr, DecidableEq

/-- Entry of `success_list` and of the `processed_invoice_numbers` mapping. -/
structure SuccessInfo where
  path : String
  filename : String
  amount : Nat
  invoice_number : String
deriving Repr, DecidableEq

/-- Entry of `duplicate_list`; `moved_to` is `none` when relocation failed. -/
structure DupInfo where
  path : String
  filename : String
  invoice_number : String
  original_path : String
  moved_to : Option String
deriving Repr, DecidableEq

/-- The worker's accumulated statistics. -/
structure BatchState where
  total_amount : Nat
  total_count : Nat
  failed_count : Nat
  duplicate_count : Nat
  failed_list : List String
  success_list : List SuccessInfo
  duplicate_list : List DupInfo
  processed : List (String × SuccessInfo)
deriving Repr, DecidableEq

/-- Initial statistics of a run. -/
def initState : BatchState :=
  { total_amount := 0, total_count := 0, failed_count := 0, duplicate_count := 0,
    failed_list := [], success_list := [], duplicate_list := [], processed := [] }

/-- Dictionary lookup in `processed_invoice_numbers` (keys are unique because
a number already present is routed to the duplicate branch instead). -/
def lookupNum : List (String × SuccessInfo) → String → Option SuccessInfo
  | [], _ => none
  | x :: xs, n => if x.1 = n then some x.2 else lookupNum xs n

/-- The loop body of `WorkerThread.run` for one document: duplicate check
first (non-empty number already registered); otherwise success on a positive
amount (registering a non-empty number) or failure on the zero sentinel. -/
def processDoc (move : String → String → Option String) (tmpDir : String)
    (st : BatchState) (d : Doc) : BatchState :=
  match (if d.number = "" then none else lookupNum st.processed d.number) with
  | some orig =>
    let info : DupInfo :=
      { path := d.path, filename := basename d.path, invoice_number := d.number,
        original_path := orig.path, moved_to := move d.path tmpDir }
    { st with duplicate_count := st.duplicate_count + 1,
              duplicate_list := st.duplicate_list ++ [info] }
  | none =>
    if 0 < d.amount then
      let info : SuccessInfo :=
        { path := d.path, filename := basename d.path, amount := d.amount,
          invoice_number := d.number }
      { st with total_amount := st.total_amount + d.amount,
                total_count := st.total_count + 1,
                success_list := st.success_list ++ [info],
                processed :=
                  if d.number = "" then st.processed
                  else st.processed ++ [(d.number, info)] }
    else
      { st with failed_count := st.failed_count + 1,
                failed_list := st.failed_list ++ [d.path] }

/-- Processing of the whole worklist in discovery order. -/
def processAll (move : String → String → Option String) (tmpDir : String)
    (st : BatchState) (docs : List Doc) : BatchState :=
  docs.foldl (processDoc move tmpDir) st

/-- Output side effects of a run: the failed-list file, the duplicate report
and the quarantine directory (created by the first relocation attempt). -/
structure SideEffects where
  failedFileWritten : Bool
  duplicateFileWritten : Bool
  quarantineCreated : Bool
deriving Repr, DecidableEq

/-- Result handed to `finished_processing`: a structured error, or the final
statistics. -/
inductive RunOutcome where
  | err (msg : String)
  | done (st : BatchState)
deriving Repr, DecidableEq

/-- Model of `WorkerThread.run`: directory validation first (fail fast with a
structured error and no side effects), then the per-document loop, then the
post-walk artifacts (failed list written only when failures exist and a file
was configured; duplicate report and quarantine only when duplicates exist). -/
def workerRun (dirExists isDir : Bool) (directory : String)
    (failedListFile : Option String) (move : String → String → Option String)
    (docs : List Doc) : RunOutcome × SideEffects :=
  if dirExists = false then
    (.err ("目录不存在: " ++ directory), ⟨false, false, false⟩)
  else if isDir = false then
    (.err ("路径不是目录: " ++ directory), ⟨false, false, false⟩)
  else
    let tmpDir := directory ++ "/tmp_duplicates"
    let st := processAll move tmpDir initState docs
    (.done st,
      { failedFileWritten := decide (st.failed_list ≠ []) && failedListFile.isSome,
        duplicateFileWritten := decide (st.duplicate_list ≠ []),
        quarantineCreated := decide (st.duplicate_list ≠ []) })

/-! ### Lemmas about the batch loop -/

theorem lookupNum_append (l r : List (String × SuccessInfo)) (n : String) :
    lookupNum (l ++ r) n =
      match lookupNum l n with
      | some i => some i
      | none => lookupNum r n := by
  induction l with
  | nil => rfl
  | cons x xs ih =>
    by_cases hx : x.1 = n
    · simp [lookupNum, hx]
    · simp [lookupNum, hx, ih]

/-- Consistency of the accumulated statistics (the C10 invariant). -/
def Consistent (st : BatchState) : Prop :=
  st.total_count = st.success_list.length ∧
  st.failed_count = st.failed_list.length ∧
  st.duplicate_count = st.duplicate_list.length ∧
  st.total_amount = (st.success_list.map SuccessInfo.amount).sum

theorem processDoc_consistent (move : String → String → Option String)
    (tmpDir : String) (st : BatchState) (d : Doc) (h : Consistent st) :
    Consistent (processDoc move tmpDir st d) := by
  obtain ⟨h1, h2, h3, h4⟩ := h
  unfold processDoc
  cases hm : (if d.number = "" then none else lookupNum st.processed d.number) with
  | some orig => exact ⟨h1, h2, by simp [h3], h4⟩
  | none =>
    by_cases ha : 0 < d.amount
    · simp only [ha, if_pos]
      refine ⟨by simp [h1], h2, h3, ?_⟩
      simp [h4]
    · simp only [ha, if_neg, not_false_iff]
      exact ⟨h1, by simp [h2], h3, h4⟩

theorem processAll_consistent (move : String → String → Option String)
    (tmpDir : String) (docs : List Doc) (st : BatchState) (h : Consistent st) :
    Consistent (processAll move tmpDir st docs) := by
  induction docs generalizing st with
  | nil => exact h
  | cons d ds ih => exact ih _ (processDoc_consistent move tmpDir st d h)

/-- Registration invariant (the C9 invariant): every entry of the
duplicate-tracking mapping is a successfully processed invoice with a
positive amount. -/
def Registered (st : BatchState) : Prop :=
  ∀ n info, lookupNum st.processed n = some info →
    info ∈ st.success_list ∧ 0 < info.amount

theorem processDoc_registered (move : String → String → Option String)
    (tmpDir : String) (st : BatchState) (d : Doc) (h : Registered st) :
    Registered (processDoc move tmpDir st d) := by
  unfold processDoc
  cases hm : (if d.number = "" then none else lookupNum st.processed d.number) with
  | some orig => exact h
  | none =>
    by_cases ha : 0 < d.amount
    · simp only [ha, if_pos]
      intro n info hl
      by_cases hn : d.number = ""
      · simp only [hn, if_pos] at hl
        rcases h n info hl with ⟨hmem, hamt⟩
        exact ⟨List.mem_append_left _ hmem, hamt⟩
      · simp only [hn, if_neg, not_false_iff] at hl
        rw [lookupNum_append] at hl
        cases hl2 : lookupNum st.processed n with
        | some i =>
          rw [hl2] at hl
          cases hl
          rcases h n info hl2 with ⟨hmem, hamt⟩
          exact ⟨List.mem_append_left _ hmem, hamt⟩
        | none =>
          rw [hl2] at hl
          by_cases he : d.number = n
          · subst he
            simp only [lookupNum, if_pos, Option.some.injEq] at hl
            subst hl
            exact ⟨List.mem_append_right _ (by simp), ha⟩
          · simp [lookupNum, he] at hl
    · simp only [ha, if_neg, not_false_iff]
      exact h

theorem processAll_registered (move : String → String → Option String)
    (tmpDir : String) (docs : List Doc) (st : BatchState) (h : Registered st) :
    Registered (processAll move tmpDir st docs) := by
  induction docs generalizing st with
  | nil => exact h
  | cons d ds ih => exact ih _ (processDoc_registered move tmpDir st d h)

/-- The empty invoice number is never a key of the mapping. -/
def NoEmptyKey (st : BatchState) : Prop := lookupNum st.processed "" = none

theorem processDoc_noEmptyKey (move : String → String → Option String)
    (tmpDir : String) (st : BatchState) (d : Doc) (h : NoEmptyKey st) :
    NoEmptyKey (processDoc move tmpDir st d) := by
  unfold processDoc NoEmptyKey at *
  cases hm : (if d.number = "" then none else lookupNum st.processed d.number) with
  | some orig => exact h
  | none =>
    by_cases ha : 0 < d.amount
    · simp only [ha, if_pos]
      by_cases hn : d.number = ""
      · simpa [hn] using h
      · show lookupNum _ "" = none
        simp only [hn, if_neg, not_false_iff]
        rw [lookupNum_append, h]
        simp [lookupNum, hn]
    · simpa [ha] using h

theorem processAll_noEmptyKey (move : String → String → Option String)
    (tmpDir : String) (docs : List Doc) (st : BatchState) (h : NoEmptyKey st) :
    NoEmptyKey (processAll move tmpDir st docs) := by
  induction docs generalizing st with
  | nil => exact h
  | cons d ds ih => exact ih _ (processDoc_noEmptyKey move tmpDir st d h)

/-- A document with an empty invoice number only touches the success/failure
fields: it is never routed to the duplicate branch and never registered. -/
theorem processDoc_emptyNumber (move : String → String → Option String)
    (tmpDir : String) (st : BatchState) (d : Doc) (h : d.number = "") :
    (processDoc move tmpDir st d).duplicate_list = st.duplicate_list ∧
    (processDoc move tmpDir st d).duplicate_count = st.duplicate_count ∧
    (processDoc move tmpDir st d).processed = st.processed := by
  unfold processDoc
  simp only [h, if_pos]
  by_cases ha : 0 < d.amount
  · simp [ha]
  · simp [ha]

/-- Shared computation: a pair of documents with the same non-empty invoice
number, the first succeeding, yields exactly one success and one duplicate
referencing it. -/
theorem processAll_pair_dup (move : String → String → Option String)
    (tmpDir : String) (A B : Doc) (h1 : A.number = B.number) (h2 : A.number ≠ "")
    (h3 : 0 < A.amount) :
    processAll move tmpDir initState [A, B] =
      { total_amount := A.amount, total_count := 1, failed_count := 0,
        duplicate_count := 1, failed_list := [],
        success_list := [⟨A.path, basename A.path, A.amount, A.number⟩],
        duplicate_list := [⟨B.path, basename B.path, B.number, A.path, move B.path tmpDir⟩],
        processed := [(A.number, ⟨A.path, basename A.path, A.amount, A.number⟩)] } := by
  have h2' : B.number ≠ "" := h1 ▸ h2
  have step1 : processDoc move tmpDir initState A =
      { total_amount := A.amount, total_count := 1, failed_count := 0,
        duplicate_count := 0, failed_list := [],
        success_list := [⟨A.path, basename A.path, A.amount, A.number⟩],
        duplicate_list := [],
        processed := [(A.number, ⟨A.path, basename A.path, A.amount, A.number⟩)] } := by
    unfold processDoc
    simp [initState, lookupNum, h2, h3]
  show processDoc move tmpDir (processDoc move tmpDir initState A) B = _
  rw [step1]
  unfold processDoc
  simp [lookupNum, h2', h1]

/-- Claim C2 (amended): for two documents with identical non-empty invoice
numbers processed in order A then B, where A's amount extraction succeeded,
B is marked as a duplicate referencing A as the original, B's amount plays
no role in the result, and only A's amount is counted. -/
theorem C2_duplicate_pair (move : String → String → Option String)
    (tmpDir : String) (A B : Doc) (h1 : A.number = B.number) (h2 : A.number ≠ "")
    (h3 : 0 < A.amount) :
    (processAll move tmpDir initState [A, B]).duplicate_count = 1 ∧
    (processAll move tmpDir initState [A, B]).duplicate_list =
      [⟨B.path, basename B.path, B.number, A.path, move B.path tmpDir⟩] ∧
    (processAll move tmpDir initState [A, B]).total_amount = A.amount ∧
    (processAll move tmpDir initState [A, B]).total_count = 1 ∧
    (processAll move tmpDir initState [A, B]).success_list =
      [⟨A.path, basename A.path, A.amount, A.number⟩] ∧
    (∀ x, processAll move tmpDir initState [A, { B with amount := x }] =
      processAll move tmpDir initState [A, B]) := by
  have hB := processAll_pair_dup move tmpDir A B h1 h2 h3
  refine ⟨by rw [hB], by rw [hB], by rw [hB], by rw [hB], by rw [hB], ?_⟩
  intro x
  have hx := processAll_pair_dup move tmpDir A { B with amount := x } h1 h2 h3
  rw [hx, hB]

/-- Witness for C2: a concrete duplicate pair. -/
theorem C2_duplicate_pair_witness :
    (processAll (fun _ _ => none) "d/tmp_duplicates" initState
        [⟨"a.pdf", "12345678", 100⟩, ⟨"b.pdf", "12345678", 200⟩]).duplicate_count = 1 ∧
    (processAll (fun _ _ => none) "d/tmp_duplicates" initState
        [⟨"a.pdf", "12345678", 100⟩, ⟨"b.pdf", "12345678", 200⟩]).total_amount = 100 :=
  have h := C2_duplicate_pair (fun _ _ => none) "d/tmp_duplicates"
    ⟨"a.pdf", "12345678", 100⟩ ⟨"b.pdf", "12345678", 200⟩ rfl (by decide) (by decide)
  ⟨h.1, h.2.2.1⟩

/-- Counterexample to claim C2 as stated: when A's amount extraction fails
(amount 0), a later document with the same non-empty invoice number is not
marked as a duplicate — it is processed as a fresh success and its own
amount is counted, contradicting "marks B as Duplicate referencing A" and
"counts only A's amount". -/
theorem C2_counterexample :
    (⟨"a.pdf", "12345678", 0⟩ : Doc).number = (⟨"b.pdf", "12345678", 500⟩ : Doc).number ∧
    (⟨"a.pdf", "12345678", 0⟩ : Doc).number ≠ "" ∧
    (processAll (fun _ _ => none) "d/tmp_duplicates" initState
        [⟨"a.pdf", "12345678", 0⟩, ⟨"b.pdf", "12345678", 500⟩]).duplicate_count = 0 ∧
    (processAll (fun _ _ => none) "d/tmp_duplicates" initState
        [⟨"a.pdf", "12345678", 0⟩, ⟨"b.pdf", "12345678", 500⟩]).duplicate_list = [] ∧
    (processAll (fun _ _ => none) "d/tmp_duplicates" initState
        [⟨"a.pdf", "12345678", 0⟩, ⟨"b.pdf", "12345678", 500⟩]).total_amount = 500 := by
  refine ⟨rfl, by decide, ?_, ?_, ?_⟩ <;> rfl

/-- Claim C6: documents with empty invoice numbers are never flagged as
duplicates of each other, and the empty string is never a key of the
duplicate-tracking mapping. -/
theorem C6_empty_number_never_duplicate :
    (∀ (move : String → String → Option String) (tmpDir : String) (docs : List Doc),
      lookupNum (processAll move tmpDir initState docs).processed "" = none) ∧
    (∀ (move : String → String → Option String) (tmpDir : String) (A B : Doc),
      A.number = "" → B.number = "" →
      (processAll move tmpDir initState [A, B]).duplicate_list = [] ∧
      (processAll move tmpDir initState [A, B]).duplicate_count = 0) := by
  constructor
  · intro move tmpDir docs
    exact processAll_noEmptyKey move tmpDir docs initState rfl
  · intro move tmpDir A B hA hB
    have s1 := processDoc_emptyNumber move tmpDir initState A hA
    have s2 := processDoc_emptyNumber move tmpDir (processDoc move tmpDir initState A) B hB
    show (processDoc move tmpDir (processDoc move tmpDir initState A) B).duplicate_list = []
      ∧ (processDoc move tmpDir (processDoc move tmpDir initState A) B).duplicate_count = 0
    rw [s2.1, s1.1, s2.2.1, s1.2.1]
    exact ⟨rfl, rfl⟩

/-- Witness for C6: two identical documents without an invoice number. -/
theorem C6_empty_number_never_duplicate_witness :
    (processAll (fun _ _ => none) "d/tmp_duplicates" initState
        [⟨"a.pdf", "", 100⟩, ⟨"a.pdf", "", 100⟩]).duplicate_list = [] ∧
    (processAll (fun _ _ => none) "d/tmp_duplicates" initState
        [⟨"a.pdf", "", 100⟩, ⟨"a.pdf", "", 100⟩]).duplicate_count = 0 :=
  C6_empty_number_never_duplicate.2 (fun _ _ => none) "d/tmp_duplicates"
    ⟨"a.pdf", "", 100⟩ ⟨"a.pdf", "", 100⟩ rfl rfl

/-- Claim C9: an invoice number is registered in the duplicate-tracking
mapping only for a successfully processed document (amount > 0); hence when
the first document with number N fails, a later one with the same N is not
flagged and is processed normally. -/
theorem C9_registered_only_on_success :
    (∀ (move : String → String → Option String) (tmpDir : String) (docs : List Doc)
        (n : String) (info : SuccessInfo),
      lookupNum (processAll move tmpDir initState docs).processed n = some info →
      info ∈ (processAll move tmpDir initState docs).success_list ∧ 0 < info.amount) ∧
    (∀ (move : String → String → Option String) (tmpDir : String) (A B : Doc),
      A.number = B.number → A.number ≠ "" → A.amount = 0 → 0 < B.amount →
      (processAll move tmpDir initState [A, B]).duplicate_count = 0 ∧
      (processAll move tmpDir initState [A, B]).duplicate_list = [] ∧
      (processAll move tmpDir initState [A, B]).failed_list = [A.path] ∧
      (processAll move tmpDir initState [A, B]).success_list =
        [⟨B.path, basename B.path, B.amount, B.number⟩] ∧
      (processAll move tmpDir initState [A, B]).total_amount = B.amount) := by
  constructor
  · intro move tmpDir docs n info hl
    refine processAll_registered move tmpDir docs initState ?_ n info hl
    intro n' info' h'
    simp [lookupNum] at h'
  · intro move tmpDir A B h1 h2 h3 h4
    have h2' : B.number ≠ "" := h1 ▸ h2
    have step1 : processDoc move tmpDir initState A =
        { total_amount := 0, total_count := 0, failed_count := 1,
          duplicate_count := 0, failed_list := [A.path], success_list := [],
          duplicate_list := [], processed := [] } := by
      unfold processDoc
      simp [initState, lookupNum, h2, h3]
    have step2 : processAll move tmpDir initState [A, B] =
        { total_amount := B.amount, total_count := 1, failed_count := 1,
          duplicate_count := 0, failed_list := [A.path],
          success_list := [⟨B.path, basename B.path, B.amount, B.number⟩],
          duplicate_list := [],
          processed := [(B.number, ⟨B.path, basename B.path, B.amount, B.number⟩)] } := by
      show processDoc move tmpDir (processDoc move tmpDir initState A) B = _
      rw [step1]
      unfold processDoc
      simp [lookupNum, h2', h4]
    rw [step2]
    exact ⟨rfl, rfl, rfl, rfl, rfl⟩

/-- Witness for C9: first document fails, second with the same number
succeeds and is not a duplicate. -/
theorem C9_registered_only_on_success_witness :
    (processAll (fun _ _ => none) "d/tmp_duplicates" initState
        [⟨"a.pdf", "12345678", 0⟩, ⟨"b.pdf", "12345678", 500⟩]).duplicate_count = 0 ∧
    (processAll (fun _ _ => none) "d/tmp_duplicates" initState
        [⟨"a.pdf", "12345678", 0⟩, ⟨"b.pdf", "12345678", 500⟩]).total_amount = 500 :=
  have h := C9_registered_only_on_success.2 (fun _ _ => none) "d/tmp_duplicates"
    ⟨"a.pdf", "12345678", 0⟩ ⟨"b.pdf", "12345678", 500⟩ rfl (by decide) rfl (by decide)
  ⟨h.1, h.2.2.2.2⟩

/-- Claim C10: the emitted batch result is internally consistent — each count
equals the length of its list and the total amount is the exact sum of the
successful amounts, `0` for an empty directory. -/
theorem C10_result_consistency (move : String → String → Option String)
    (tmpDir : String) (docs : List Doc) :
    (processAll move tmpDir initState docs).total_count
      = (processAll move tmpDir initState docs).success_list.length ∧
    (processAll move tmpDir initState docs).failed_count
      = (processAll move tmpDir initState docs).failed_list.length ∧
    (processAll move tmpDir initState docs).duplicate_count
      = (processAll move tmpDir initState docs).duplicate_list.length ∧
    (processAll move tmpDir initState docs).total_amount
      = ((processAll move tmpDir initState docs).success_list.map SuccessInfo.amount).sum ∧
    processAll move tmpDir initState [] = initState := by
  have h := processAll_consistent move tmpDir docs initState ⟨rfl, rfl, rfl, rfl⟩
  exact ⟨h.1, h.2.1, h.2.2.1, h.2.2.2, rfl⟩

/-- Claim C8: an invalid root (missing or not a directory) fails fast with
the structured error, independently of any would-be worklist, and emits no
side-effect files. -/
theorem C8_invalid_root (dirExists isDir : Bool) (directory : String)
    (flf : Option String) (move : String → String → Option String)
    (docs docs' : List Doc) (h : dirExists = false ∨ isDir = false) :
    (workerRun dirExists isDir directory flf move docs).1 =
      (if dirExists = false then RunOutcome.err ("目录不存在: " ++ directory)
       else RunOutcome.err ("路径不是目录: " ++ directory)) ∧
    (workerRun dirExists isDir directory flf move docs).2 = ⟨false, false, false⟩ ∧
    workerRun dirExists isDir directory flf move docs
      = workerRun dirExists isDir directory flf move docs' := by
  rcases h with h | h
  · subst h
    exact ⟨rfl, rfl, rfl⟩
  · subst h
    cases dirExists with
    | false => exact ⟨rfl, rfl, rfl⟩
    | true => exact ⟨rfl, rfl, rfl⟩

/-- Witness for C8: a missing directory. -/
theorem C8_invalid_root_witness :
    (workerRun false true "/nope" none (fun _ _ => none) [⟨"a.pdf", "1", 1⟩]).1 =
      RunOutcome.err ("目录不存在: " ++ "/nope") ∧
    (workerRun false true "/nope" none (fun _ _ => none) [⟨"a.pdf", "1", 1⟩]).2 =
      ⟨false, false, false⟩ :=
  have h := C8_invalid_root false true "/nope" none (fun _ _ => none)
    [⟨"a.pdf", "1", 1⟩] [] (Or.inl rfl)
  ⟨by simpa using h.1, h.2.1⟩

/-! ### Claim C1: invoice-number selection -/

/-- All captures produced by the eight labeled invoice-number patterns. -/
def allLabeledMatches (t : List Char) : List (List Char) :=
  (invoice_patterns.map (fun p => findall1 p t)).flatten

theorem maxByLen_spec (m : List Char) (ms : List (List Char)) :
    maxByLen (m :: ms) ∈ m :: ms ∧
      ∀ x ∈ m :: ms, x.length ≤ (maxByLen (m :: ms)).length := by
  induction ms generalizing m with
  | nil => exact ⟨by simp [maxByLen], by simp [maxByLen]⟩
  | cons y ys ih =>
    have hf : (if m.length < y.length then y else m) = y ∨
        (if m.length < y.length then y else m) = m := by
      by_cases h : m.length < y.length <;> simp [h]
    have hm : m.length ≤ (if m.length < y.length then y else m).length := by
      by_cases h : m.length < y.length <;> simp [h] <;> omega
    have hy : y.length ≤ (if m.length < y.length then y else m).length := by
      by_cases h : m.length < y.length <;> simp [h] <;> omega
    obtain ⟨ih1, ih2⟩ := ih (if m.length < y.length then y else m)
    have hred : maxByLen (m :: y :: ys) = maxByLen ((if m.length < y.length then y else m) :: ys) := by
      simp [maxByLen]
    constructor
    · rw [hred]
      rcases List.mem_cons.1 ih1 with h | h
      · rcases hf with h2 | h2 <;> rw [h, h2] <;> simp
      · simp [h]
    · intro x hx
      rw [hred]
      rcases List.mem_cons.1 hx with h | h
      · subst h
        exact le_trans hm (ih2 _ (by simp))
      rcases List.mem_cons.1 h with h | h
      · subst h
        exact le_trans hy (ih2 _ (by simp))
      · exact ih2 _ (by simp [h])

theorem tryPatterns_first (t : List Char) (ps₁ : List Re) (p : Re) (ps₂ : List Re)
    (hfail : ∀ q ∈ ps₁, findall1 q t = []) (hm : findall1 p t ≠ []) :
    tryPatterns (ps₁ ++ p :: ps₂) t = some (maxByLen (findall1 p t)) := by
  induction ps₁ with
  | nil =>
    show tryPatterns (p :: ps₂) t = _
    unfold tryPatterns
    cases hf : findall1 p t with
    | nil => exact absurd hf hm
    | cons m ms => rfl
  | cons q qs ih =>
    show tryPatterns (q :: (qs ++ p :: ps₂)) t = _
    unfold tryPatterns
    rw [hfail q (by simp)]
    exact ih (fun r hr => hfail r (by simp [hr]))

theorem tryPatterns_none (t : List Char) (ps : List Re)
    (hfail : ∀ q ∈ ps, findall1 q t = []) : tryPatterns ps t = none := by
  induction ps with
  | nil => rfl
  | cons q qs ih =>
    unfold tryPatterns
    rw [hfail q (by simp)]
    exact ih (fun r hr => hfail r (by simp [hr]))

/-- Claim C1 (amended): `extract_invoice_number` returns the longest capture
of the *first* pattern (in cascade order) that has any match; later patterns
are not consulted even if they would capture a longer digit run.  Only when
no labeled pattern matches is the generic fallback used, again taking its
longest capture.  The returned value is a capture of that pattern and no
other capture of the same pattern is longer. -/
theorem C1_longest_of_first_matching_pattern :
    (∀ (t : String) (ps₁ : List Re) (p : Re) (ps₂ : List Re),
      invoice_patterns = ps₁ ++ p :: ps₂ →
      (∀ q ∈ ps₁, findall1 q t.data = []) →
      findall1 p t.data ≠ [] →
      extract_invoice_number t = ⟨maxByLen (findall1 p t.data)⟩ ∧
      maxByLen (findall1 p t.data) ∈ findall1 p t.data ∧
      ∀ x ∈ findall1 p t.data, x.length ≤ (maxByLen (findall1 p t.data)).length) ∧
    (∀ t : String,
      (∀ q ∈ invoice_patterns, findall1 q t.data = []) →
      findall1 general_number_pattern t.data ≠ [] →
      extract_invoice_number t = ⟨maxByLen (findall1 general_number_pattern t.data)⟩) := by
  constructor
  · intro t ps₁ p ps₂ hsplit hfail hm
    refine ⟨?_, ?_⟩
    · unfold extract_invoice_number
      rw [hsplit, tryPatterns_first t.data ps₁ p ps₂ hfail hm]
    · cases hf : findall1 p t.data with
      | nil => exact absurd hf hm
      | cons m ms => exact ⟨(maxByLen_spec m ms).1, (maxByLen_spec m ms).2⟩
  · intro t hfail hm
    unfold extract_invoice_number
    rw [tryPatterns_none t.data invoice_patterns hfail]
    cases hf : findall1 general_number_pattern t.data with
    | nil => exact absurd hf hm
    | cons m ms => rfl

/-- Witness for C1 (amended): the first labeled pattern matches directly. -/
theorem C1_longest_of_first_matching_pattern_witness :
    extract_invoice_number "发票号码：12345678" =
      ⟨maxByLen (findall1 (reSeq [strRe "发票号码".data, colonRe, wsStar,
        .grp 1 (.rep dRe 8 (some 30) false)]) "发票号码：12345678".data)⟩ :=
  (C1_longest_of_first_matching_pattern.1 "发票号码：12345678" []
    (reSeq [strRe "发票号码".data, colonRe, wsStar, .grp 1 (.rep dRe 8 (some 30) false)])
    (invoice_patterns.drop 1) rfl (by simp) (by decide)).1

/-- Counterexample to claim C1 as stated: in
`"No.12345678 号码：1234567890123456"` the pattern `号码[：:]\s*(\d{8,30})`
captures a 16-digit run, yet the extractor returns the 8-digit capture of the
earlier `No`-labeled pattern — the result is not the longest captured digit
run among all pattern matches. -/
theorem C1_counterexample :
    "1234567890123456".data ∈ allLabeledMatches "No.12345678 号码：1234567890123456".data ∧
    extract_invoice_number "No.12345678 号码：1234567890123456" = "12345678" ∧
    ¬ ("1234567890123456".data.length ≤ "12345678".data.length) := by
  refine ⟨by decide, by decide, by decide⟩

/-! ### Claims C3 and C7: party-extraction strategy interaction -/

theorem strMk_ne_empty (m : List Char) (h : m ≠ []) : (⟨m⟩ : String) ≠ "" :=
  fun he => h (congrArg String.data he)

theorem lineScanStep_tax (r : CompanyInfo) (line : List Char) :
    (lineScanStep r line).buyer_tax_id = r.buyer_tax_id ∧
    (lineScanStep r line).seller_tax_id = r.seller_tax_id := by
  unfold lineScanStep
  by_cases hg : (isSubstr "名称".data line && isSubstr [':'] line) = true
  · simp only [hg, if_pos]
    cases hp : pySplit ':' line with
    | nil => exact ⟨rfl, rfl⟩
    | cons p0 rest =>
      cases rest with
      | nil => exact ⟨rfl, rfl⟩
      | cons p1 _ =>
        by_cases hb : isSubstr "购买方".data p0 = true
        · simp [hb]
        · by_cases hs : isSubstr "销售方".data p0 = true <;> simp [hb, hs]
  · simp only [hg, if_neg, not_false_iff]
    exact ⟨rfl, rfl⟩

theorem foldl_lineScan_tax (lines : List (List Char)) (r : CompanyInfo) :
    (lines.foldl lineScanStep r).buyer_tax_id = r.buyer_tax_id ∧
    (lines.foldl lineScanStep r).seller_tax_id = r.seller_tax_id := by
  induction lines generalizing r with
  | nil => exact ⟨rfl, rfl⟩
  | cons l ls ih =>
    have h1 := lineScanStep_tax r l
    have h2 := ih (lineScanStep r l)
    exact ⟨h2.1.trans h1.1, h2.2.trans h1.2⟩

theorem strat2_tax (t : List Char) (r : CompanyInfo) :
    (strat2 t r).buyer_tax_id = r.buyer_tax_id ∧
    (strat2 t r).seller_tax_id = r.seller_tax_id := by
  unfold strat2
  by_cases hg : r.buyer_name = "" ∨ r.seller_name = ""
  · rw [if_pos hg]
    exact foldl_lineScan_tax _ r
  · rw [if_neg hg]
    exact ⟨rfl, rfl⟩

theorem strat2_skip (t : List Char) (r : CompanyInfo)
    (hb : r.buyer_name ≠ "") (hs : r.seller_name ≠ "") : strat2 t r = r := by
  unfold strat2
  simp [hb, hs]

theorem fillBuyerName_fields (v : List Char) (r : CompanyInfo) :
    (fillBuyerName v r).buyer_tax_id = r.buyer_tax_id ∧
    (fillBuyerName v r).seller_name = r.seller_name ∧
    (fillBuyerName v r).seller_tax_id = r.seller_tax_id ∧
    (r.buyer_name ≠ "" → fillBuyerName v r = r) := by
  unfold fillBuyerName
  by_cases h : r.buyer_name = ""
  · rw [if_pos h]
    exact ⟨rfl, rfl, rfl, fun hc => absurd h hc⟩
  · rw [if_neg h]
    exact ⟨rfl, rfl, rfl, fun _ => rfl⟩

theorem fillSellerName_fields (v : List Char) (r : CompanyInfo) :
    (fillSellerName v r).buyer_tax_id = r.buyer_tax_id ∧
    (fillSellerName v r).buyer_name = r.buyer_name ∧
    (fillSellerName v r).seller_tax_id = r.seller_tax_id ∧
    (r.seller_name ≠ "" → fillSellerName v r = r) := by
  unfold fillSellerName
  by_cases h : r.seller_name = ""
  · rw [if_pos h]
    exact ⟨rfl, rfl, rfl, fun hc => absurd h hc⟩
  · rw [if_neg h]
    exact ⟨rfl, rfl, rfl, fun _ => rfl⟩

theorem fillBuyerTax_fields (v : List Char) (r : CompanyInfo) :
    (fillBuyerTax v r).buyer_name = r.buyer_name ∧
    (fillBuyerTax v r).seller_name = r.seller_name ∧
    (fillBuyerTax v r).seller_tax_id = r.seller_tax_id ∧
    (r.buyer_tax_id ≠ "" → fillBuyerTax v r = r) := by
  unfold fillBuyerTax
  by_cases h : r.buyer_tax_id = ""
  · rw [if_pos h]
    exact ⟨rfl, rfl, rfl, fun hc => absurd h hc⟩
  · rw [if_neg h]
    exact ⟨rfl, rfl, rfl, fun _ => rfl⟩

theorem fillSellerTax_fields (v : List Char) (r : CompanyInfo) :
    (fillSellerTax v r).buyer_name = r.buyer_name ∧
    (fillSellerTax v r).seller_name = r.seller_name ∧
    (fillSellerTax v r).buyer_tax_id = r.buyer_tax_id ∧
    (r.seller_tax_id ≠ "" → fillSellerTax v r = r) := by
  unfold fillSellerTax
  by_cases h : r.seller_tax_id = ""
  · rw [if_pos h]
    exact ⟨rfl, rfl, rfl, fun hc => absurd h hc⟩
  · rw [if_neg h]
    exact ⟨rfl, rfl, rfl, fun _ => rfl⟩

theorem strat3_fields (t : List Char) (r : CompanyInfo) :
    (strat3 t r).buyer_name = r.buyer_name ∧
    (strat3 t r).seller_name = r.seller_name ∧
    (r.buyer_tax_id ≠ "" → (strat3 t r).buyer_tax_id = r.buyer_tax_id) ∧
    (r.seller_tax_id ≠ "" → (strat3 t r).seller_tax_id = r.seller_tax_id) := by
  unfold strat3
  by_cases hg : r.buyer_tax_id = "" ∨ r.seller_tax_id = ""
  · rw [if_pos hg]
    cases findall1 tax_id_pattern t with
    | nil => exact ⟨rfl, rfl, fun _ => rfl, fun _ => rfl⟩
    | cons m0 rest =>
      simp only []
      by_cases hb : r.buyer_tax_id = ""
      · rw [if_pos hb]
        exact ⟨rfl, rfl, fun hc => absurd hb hc, fun _ => rfl⟩
      · rw [if_neg hb]
        by_cases hsl : r.seller_tax_id = ""
        · rw [if_pos hsl]
          cases rest with
          | nil => exact ⟨rfl, rfl, fun _ => rfl, fun _ => rfl⟩
          | cons m1 _ => exact ⟨rfl, rfl, fun _ => rfl, fun hc => absurd hsl hc⟩
        · rw [if_neg hsl]
          exact ⟨rfl, rfl, fun _ => rfl, fun _ => rfl⟩
  · rw [if_neg hg]
    exact ⟨rfl, rfl, fun _ => rfl, fun _ => rfl⟩

theorem strat4Names_fields (t : List Char) (r : CompanyInfo) :
    (strat4Names t r).buyer_tax_id = r.buyer_tax_id ∧
    (strat4Names t r).seller_tax_id = r.seller_tax_id ∧
    (r.buyer_name ≠ "" → (strat4Names t r).buyer_name = r.buyer_name) ∧
    (r.seller_name ≠ "" → (strat4Names t r).seller_name = r.seller_name) := by
  unfold strat4Names
  cases findall1 special_name_pattern t with
  | nil => exact ⟨rfl, rfl, fun _ => rfl, fun _ => rfl⟩
  | cons n0 rest =>
    cases rest with
    | nil => exact ⟨rfl, rfl, fun _ => rfl, fun _ => rfl⟩
    | cons n1 _ =>
      simp only []
      have hB := fillBuyerName_fields n0 r
      have hS := fillSellerName_fields n1 (fillBuyerName n0 r)
      refine ⟨hS.1.trans hB.1, hS.2.2.1.trans hB.2.2.1, ?_, ?_⟩
      · intro hc
        rw [hS.2.1, hB.2.2.2 hc]
      · intro hc
        rw [hS.2.2.2 (by rw [hB.2.1]; exact hc), hB.2.1]

theorem strat4Tax_fields (t : List Char) (r : CompanyInfo) :
    (strat4Tax t r).buyer_name = r.buyer_name ∧
    (strat4Tax t r).seller_name = r.seller_name ∧
    (r.buyer_tax_id ≠ "" → (strat4Tax t r).buyer_tax_id = r.buyer_tax_id) ∧
    (r.seller_tax_id ≠ "" → (strat4Tax t r).seller_tax_id = r.seller_tax_id) := by
  unfold strat4Tax
  cases findall1 special_tax_id_pattern t with
  | nil => exact ⟨rfl, rfl, fun _ => rfl, fun _ => rfl⟩
  | cons x0 rest =>
    cases rest with
    | nil => exact ⟨rfl, rfl, fun _ => rfl, fun _ => rfl⟩
    | cons x1 _ =>
      simp only []
      have hB := fillBuyerTax_fields x0 r
      have hS := fillSellerTax_fields x1 (fillBuyerTax x0 r)
      refine ⟨hS.1.trans hB.1, hS.2.1.trans hB.2.1, ?_, ?_⟩
      · intro hc
        rw [hS.2.2.1, hB.2.2.2 hc]
      · intro hc
        rw [hS.2.2.2 (by rw [hB.2.2.1]; exact hc), hB.2.2.1]

/-- Claim C3 (amended): strategies three and four never overwrite an
already-found field — strategy three leaves the name fields untouched and
fills only empty tax identifiers, and both phases of strategy four fill only
empty fields.  Strategy two runs only when the buyer or the seller name is
still empty and never touches the tax identifiers, but its line scan assigns
the name fields unconditionally and so can overwrite a name found by
strategy one. -/
theorem C3_strategy_overwrite_discipline :
    (∀ (t : List Char) (r : CompanyInfo),
      (strat3 t r).buyer_name = r.buyer_name ∧
      (strat3 t r).seller_name = r.seller_name ∧
      (r.buyer_tax_id ≠ "" → (strat3 t r).buyer_tax_id = r.buyer_tax_id) ∧
      (r.seller_tax_id ≠ "" → (strat3 t r).seller_tax_id = r.seller_tax_id)) ∧
    (∀ (t : List Char) (r : CompanyInfo),
      (r.buyer_name ≠ "" → (strat4 t r).buyer_name = r.buyer_name) ∧
      (r.seller_name ≠ "" → (strat4 t r).seller_name = r.seller_name) ∧
      (r.buyer_tax_id ≠ "" → (strat4 t r).buyer_tax_id = r.buyer_tax_id) ∧
      (r.seller_tax_id ≠ "" → (strat4 t r).seller_tax_id = r.seller_tax_id)) ∧
    (∀ (t : List Char) (r : CompanyInfo),
      (strat2 t r).buyer_tax_id = r.buyer_tax_id ∧
      (strat2 t r).seller_tax_id = r.seller_tax_id ∧
      (r.buyer_name ≠ "" → r.seller_name ≠ "" → strat2 t r = r)) := by
  refine ⟨strat3_fields, ?_, ?_⟩
  · intro t r
    have h4n := strat4Names_fields t r
    have h4t := strat4Tax_fields t (strat4Names t r)
    refine ⟨?_, ?_, ?_, ?_⟩
    · intro h
      show (strat4Tax t (strat4Names t r)).buyer_name = r.buyer_name
      rw [h4t.1, h4n.2.2.1 h]
    · intro h
      show (strat4Tax t (strat4Names t r)).seller_name = r.seller_name
      rw [h4t.2.1, h4n.2.2.2 h]
    · intro h
      show (strat4Tax t (strat4Names t r)).buyer_tax_id = r.buyer_tax_id
      rw [h4t.2.2.1 (by rw [h4n.1]; exact h), h4n.1]
    · intro h
      show (strat4Tax t (strat4Names t r)).seller_tax_id = r.seller_tax_id
      rw [h4t.2.2.2 (by rw [h4n.2.1]; exact h), h4n.2.1]
  · intro t r
    exact ⟨(strat2_tax t r).1, (strat2_tax t r).2, fun hb hs => strat2_skip t r hb hs⟩

/-- Witness for C3: a record with every field already set passes through
strategies two, three and four unchanged. -/
theorem C3_strategy_overwrite_discipline_witness :
    (strat3 "x".data ⟨"a", "b", "c", "d"⟩).buyer_tax_id = "b" ∧
    (strat4 "x".data ⟨"a", "b", "c", "d"⟩).seller_tax_id = "d" ∧
    strat2 "x".data ⟨"a", "b", "c", "d"⟩ = ⟨"a", "b", "c", "d"⟩ :=
  ⟨(C3_strategy_overwrite_discipline.1 "x".data ⟨"a", "b", "c", "d"⟩).2.2.1 (by decide),
   (C3_strategy_overwrite_discipline.2.1 "x".data ⟨"a", "b", "c", "d"⟩).2.2.2 (by decide),
   (C3_strategy_overwrite_discipline.2.2 "x".data ⟨"a", "b", "c", "d"⟩).2.2
     (by decide) (by decide)⟩

/-- Counterexample to claim C3 as stated: on
`"购买方名称:甲\n购买方名称:乙"` strategy one extracts buyer name `甲`,
but the strategy-2 line scan (running because the seller name is missing)
reassigns the buyer name unconditionally, overwriting the non-empty value
found by the earlier strategy with `乙`. -/
theorem C3_counterexample :
    (strat1 "购买方名称:甲\n购买方名称:乙".data).buyer_name = "甲" ∧
    ("甲" : String) ≠ "" ∧
    (strat2 "购买方名称:甲\n购买方名称:乙".data
        (strat1 "购买方名称:甲\n购买方名称:乙".data)).buyer_name = "乙" ∧
    ("乙" : String) ≠ "甲" := by
  refine ⟨by decide, by decide, by decide, by decide⟩

/-- Claim C7 (amended): when the combined-label regex has at least two
matches and both tax identifiers are still empty at that point, the first
match fills the buyer tax ID, but the second match is not used — the two
assignments of the combined-label fallback are exclusive alternatives, so
this pass leaves the seller tax ID empty; it is filled afterwards only if
the stricter dual-occurrence pattern (slash and colon mandatory) also has at
least two matches, in which case that pattern's second match is used. -/
theorem C7_combined_label_fallback (t : String) (m0 m1 : List Char)
    (rest : List (List Char))
    (hb : (strat2 t.data (strat1 t.data)).buyer_tax_id = "")
    (hs : (strat2 t.data (strat1 t.data)).seller_tax_id = "")
    (hm : findall1 tax_id_pattern t.data = m0 :: m1 :: rest)
    (hm0 : m0 ≠ []) :
    (extract_company_info t).buyer_tax_id = ⟨m0⟩ ∧
    (strat3 t.data (strat2 t.data (strat1 t.data))).seller_tax_id = "" ∧
    (extract_company_info t).seller_tax_id =
      (match findall1 special_tax_id_pattern t.data with
       | _ :: x1 :: _ => (⟨pyStrip x1⟩ : String)
       | _ => "") := by
  have h3 : strat3 t.data (strat2 t.data (strat1 t.data)) =
      { strat2 t.data (strat1 t.data) with buyer_tax_id := ⟨m0⟩ } := by
    unfold strat3
    rw [hm]
    simp [hb]
  have hbne : (⟨m0⟩ : String) ≠ "" := strMk_ne_empty m0 hm0
  have h4n := strat4Names_fields t.data (strat3 t.data (strat2 t.data (strat1 t.data)))
  refine ⟨?_, by rw [h3]; exact hs, ?_⟩
  · show (strat4Tax t.data (strat4Names t.data _)).buyer_tax_id = ⟨m0⟩
    have hb4 : (strat4Names t.data (strat3 t.data (strat2 t.data (strat1 t.data)))).buyer_tax_id
        = ⟨m0⟩ := by rw [h4n.1, h3]
    rw [(strat4Tax_fields t.data _).2.2.1 (by rw [hb4]; exact hbne), hb4]
  · show (strat4Tax t.data (strat4Names t.data _)).seller_tax_id = _
    have hb4 : (strat4Names t.data (strat3 t.data (strat2 t.data (strat1 t.data)))).buyer_tax_id
        = ⟨m0⟩ := by rw [h4n.1, h3]
    have hs4 : (strat4Names t.data (strat3 t.data (strat2 t.data (strat1 t.data)))).seller_tax_id
        = "" := by rw [h4n.2.1, h3]; exact hs
    unfold strat4Tax
    cases hsp : findall1 special_tax_id_pattern t.data with
    | nil => exact hs4
    | cons x0 rest2 =>
      cases rest2 with
      | nil => exact hs4
      | cons x1 _ =>
        simp only []
        rw [(fillBuyerTax_fields x0 _).2.2.2 (by rw [hb4]; exact hbne)]
        unfold fillSellerTax
        rw [if_pos hs4]

/-- Counterexample to claim C7 as stated: on a text whose two combined-label
occurrences carry neither slash nor colon, both tax IDs are empty entering
the fallback and the regex yields two distinct matches, yet the seller tax
ID ends up empty — the second match does not fill it. -/
theorem C7_counterexample :
    (strat2 "统一社会信用代码纳税人识别号AAAAAAAAAAAAAAA统一社会信用代码纳税人识别号BBBBBBBBBBBBBBB".data
      (strat1 "统一社会信用代码纳税人识别号AAAAAAAAAAAAAAA统一社会信用代码纳税人识别号BBBBBBBBBBBBBBB".data)).buyer_tax_id = "" ∧
    (strat2 "统一社会信用代码纳税人识别号AAAAAAAAAAAAAAA统一社会信用代码纳税人识别号BBBBBBBBBBBBBBB".data
      (strat1 "统一社会信用代码纳税人识别号AAAAAAAAAAAAAAA统一社会信用代码纳税人识别号BBBBBBBBBBBBBBB".data)).seller_tax_id = "" ∧
    findall1 tax_id_pattern "统一社会信用代码纳税人识别号AAAAAAAAAAAAAAA统一社会信用代码纳税人识别号BBBBBBBBBBBBBBB".data
      = ["AAAAAAAAAAAAAAA".data, "BBBBBBBBBBBBBBB".data] ∧
    (extract_company_info "统一社会信用代码纳税人识别号AAAAAAAAAAAAAAA统一社会信用代码纳税人识别号BBBBBBBBBBBBBBB").seller_tax_id = "" ∧
    ("" : String) ≠ "BBBBBBBBBBBBBBB" := by
  refine ⟨by decide, by decide, by decide, by decide, by decide⟩

/-- Witness for C7 (amended): two slashed, colon-free combined labels; the
first match fills the buyer tax ID and the seller tax ID stays empty (the
strict pattern, needing a colon, has no matches). -/
theorem C7_combined_label_fallback_witness :
    (extract_company_info "统一社会信用代码/纳税人识别号AAAAAAAAAAAAAAA统一社会信用代码/纳税人识别号BBBBBBBBBBBBBBB").buyer_tax_id = "AAAAAAAAAAAAAAA" ∧
    (extract_company_info "统一社会信用代码/纳税人识别号AAAAAAAAAAAAAAA统一社会信用代码/纳税人识别号BBBBBBBBBBBBBBB").seller_tax_id = "" :=
  have h := C7_combined_label_fallback
    "统一社会信用代码/纳税人识别号AAAAAAAAAAAAAAA统一社会信用代码/纳税人识别号BBBBBBBBBBBBBBB"
    "AAAAAAAAAAAAAAA".data "BBBBBBBBBBBBBBB".data []
    (by decide) (by decide) (by decide) (by decide)
  ⟨h.1, by rw [h.2.2]; decide⟩

/-! ### Claim C5: the zero sentinel on texts without a decimal number

`hasDecToken` detects a `.DD` token (a dot followed by two digits), the
trailing factor every amount-shaped pattern of the source requires; a text
without one cannot match any tier. -/

/-- Do the first two characters exist and are they both digits? -/
def twoDigitsAt : List Char → Bool
  | a :: b :: _ => a.isDigit && b.isDigit
  | _ => false

def hasDecToken : List Char → Bool
  | [] => false
  | c :: rest => ((c = '.') && twoDigitsAt rest) || hasDecToken rest

theorem hasDecToken_drop (t : List Char) : ∀ k : Nat,
    hasDecToken (t.drop k) = true → hasDecToken t = true := by
  induction t with
  | nil => intro k h; simpa using h
  | cons c rest ih =>
    intro k h
    cases k with
    | zero => exact h
    | succ k2 =>
      have h2 : hasDecToken rest = true := ih k2 h
      unfold hasDecToken
      rw [h2]
      simp

theorem flatMapNil {α β : Type} {l : List α} {f : α → List β}
    (h : ∀ a ∈ l, f a = []) : l.flatMap f = [] := by
  induction l with
  | nil => rfl
  | cons x xs ih =>
    simp only [List.flatMap_cons]
    rw [h x (by simp), ih (fun a ha => h a (by simp [ha]))]
    rfl

/-- Each remaining input produced by the matcher is a drop of the input. -/
theorem matchReF_drop (f : Nat) : ∀ (r : Re) (pre inp : List Char)
    (x : List Char × List Char × Caps), x ∈ matchReF f r pre inp →
    ∃ j : Nat, x.2.1 = inp.drop j := by
  induction f with
  | zero => intro r pre inp x hx; simp [matchReF] at hx
  | succ g ih =>
    intro r pre inp x hx
    cases r with
    | pred p =>
      cases inp with
      | nil => simp [matchReF] at hx
      | cons c cs =>
        simp only [matchReF] at hx
        by_cases hp : p c = true
        · rw [if_pos hp] at hx
          simp at hx
          exact ⟨1, by simp [hx]⟩
        · rw [if_neg hp] at hx
          simp at hx
    | eps =>
      simp only [matchReF] at hx
      simp at hx
      exact ⟨0, by simp [hx]⟩
    | seq a b =>
      simp only [matchReF, List.mem_flatMap] at hx
      obtain ⟨y, hy, hxy⟩ := hx
      by_cases hl : y.2.1.length ≤ inp.length
      · rw [if_pos hl] at hxy
        simp only [List.mem_map] at hxy
        obtain ⟨z, hz, hzz⟩ := hxy
        obtain ⟨j1, hj1⟩ := ih a pre inp y hy
        obtain ⟨j2, hj2⟩ := ih b y.1 y.2.1 z hz
        refine ⟨j1 + j2, ?_⟩
        rw [← hzz]
        show z.2.1 = inp.drop (j1 + j2)
        rw [hj2, hj1, List.drop_drop]
      · rw [if_neg hl] at hxy
        simp at hxy
    | alt a b =>
      simp only [matchReF, List.mem_append] at hx
      rcases hx with hx | hx
      · exact ih a pre inp x hx
      · exact ih b pre inp x hx
    | grp i a =>
      simp only [matchReF, List.mem_map] at hx
      obtain ⟨y, hy, hxy⟩ := hx
      obtain ⟨j, hj⟩ := ih a pre inp y hy
      refine ⟨j, ?_⟩
      rw [← hxy]
      exact hj
    | nlb alts =>
      simp only [matchReF] at hx
      by_cases hc : alts.any (fun ps => lbMatch ps pre) = true
      · rw [if_pos hc] at hx
        simp at hx
      · rw [if_neg hc] at hx
        simp at hx
        exact ⟨0, by simp [hx]⟩
    | nla p =>
      cases inp with
      | nil =>
        simp only [matchReF] at hx
        simp at hx
        exact ⟨0, by simp [hx]⟩
      | cons c cs =>
        simp only [matchReF] at hx
        by_cases hp : p c = true
        · rw [if_pos hp] at hx
          simp at hx
        · rw [if_neg hp] at hx
          simp at hx
          exact ⟨0, by simp [hx]⟩
    | wordB =>
      simp only [matchReF] at hx
      by_cases hc : atBoundary pre inp = true
      · rw [if_pos hc] at hx
        simp at hx
        exact ⟨0, by simp [hx]⟩
      · rw [if_neg hc] at hx
        simp at hx
    | eol =>
      simp only [matchReF] at hx
      by_cases hc : inp = [] ∨ inp = ['\n']
      · rw [if_pos hc] at hx
        simp at hx
        exact ⟨0, by simp [hx]⟩
      · rw [if_neg hc] at hx
        simp at hx
    | rep a lo hi lz =>
      have hstop : ∀ hx2 : x ∈ (if lo = 0 then [(pre, inp, ([] : Caps))] else []),
          ∃ j : Nat, x.2.1 = inp.drop j := by
        intro hx2
        by_cases hl : lo = 0
        · rw [if_pos hl] at hx2
          simp at hx2
          exact ⟨0, by rw [hx2]; rfl⟩
        · rw [if_neg hl] at hx2
          simp at hx2
      have hdeep : ∀ hx2 : x ∈ (if hi = some 0 then [] else
          (matchReF g a pre inp).flatMap (fun y =>
            if y.2.1.length < inp.length then
              (matchReF g (.rep a (lo - 1) (hi.map (· - 1)) lz) y.1 y.2.1).map
                (fun z => (z.1, z.2.1, y.2.2 ++ z.2.2))
            else [])),
          ∃ j : Nat, x.2.1 = inp.drop j := by
        intro hx2
        by_cases hh : hi = some 0
        · rw [if_pos hh] at hx2
          simp at hx2
        · rw [if_neg hh] at hx2
          simp only [List.mem_flatMap] at hx2
          obtain ⟨y, hy, hxy⟩ := hx2
          by_cases hl : y.2.1.length < inp.length
          · rw [if_pos hl] at hxy
            simp only [List.mem_map] at hxy
            obtain ⟨z, hz, hzz⟩ := hxy
            obtain ⟨j1, hj1⟩ := ih a pre inp y hy
            obtain ⟨j2, hj2⟩ := ih _ y.1 y.2.1 z hz
            refine ⟨j1 + j2, ?_⟩
            rw [← hzz]
            show z.2.1 = inp.drop (j1 + j2)
            rw [hj2, hj1, List.drop_drop]
          · rw [if_neg hl] at hxy
            simp at hxy
      simp only [matchReF] at hx
      by_cases hlz : lz = true
      · rw [if_pos hlz, List.mem_append] at hx
        rcases hx with hx | hx
        · exact hstop hx
        · exact hdeep hx
      · rw [if_neg hlz, List.mem_append] at hx
        rcases hx with hx | hx
        · exact hdeep hx
        · exact hstop hx

theorem matchRe_drop (r : Re) (pre inp : List Char)
    (x : List Char × List Char × Caps) (hx : x ∈ matchRe r pre inp) :
    ∃ j : Nat, x.2.1 = inp.drop j :=
  matchReF_drop _ r pre inp x hx

/-- The regex matches nowhere inside `t` (at no suffix, under no consumed
prefix). -/
def FailsOn (r : Re) (t : List Char) : Prop :=
  ∀ (pre : List Char) (k : Nat), matchRe r pre (t.drop k) = []

theorem failsSeqL (a b : Re) (t : List Char) (h : FailsOn a t) :
    FailsOn (.seq a b) t := by
  intro pre k
  rw [matchRe_seq, h pre k]
  rfl

theorem failsSeqR (a b : Re) (t : List Char) (h : FailsOn b t) :
    FailsOn (.seq a b) t := by
  intro pre k
  rw [matchRe_seq]
  apply flatMapNil
  intro x hx
  obtain ⟨j, hj⟩ := matchRe_drop a pre (t.drop k) x hx
  have hb : matchRe b x.1 x.2.1 = [] := by
    rw [hj, List.drop_drop]
    first
      | exact h x.1 (j + k)
      | exact h x.1 (k + j)
  by_cases hl : x.2.1.length ≤ (t.drop k).length
  · rw [if_pos hl, hb]
    rfl
  · rw [if_neg hl]

theorem failsAlt (a b : Re) (t : List Char) (ha : FailsOn a t) (hb : FailsOn b t) :
    FailsOn (.alt a b) t := by
  intro pre k
  rw [matchRe_alt, ha pre k, hb pre k]
  rfl

theorem failsGrp (i : Nat) (a : Re) (t : List Char) (h : FailsOn a t) :
    FailsOn (.grp i a) t := by
  intro pre k
  rw [matchRe_grp, h pre k]
  rfl

theorem failsRep (a : Re) (lo : Nat) (hi : Option Nat) (lz : Bool) (t : List Char)
    (hlo : lo ≠ 0) (h : FailsOn a t) : FailsOn (.rep a lo hi lz) t := by
  intro pre k
  rw [matchRe_rep]
  have hstop : repStop lo pre (t.drop k) = [] := by
    unfold repStop
    rw [if_neg hlo]
  have hdeep : repDeeper a lo hi lz pre (t.drop k) = [] := by
    unfold repDeeper
    by_cases hh : hi = some 0
    · rw [if_pos hh]
    · rw [if_neg hh, h pre k]
      rfl
  rw [hstop, hdeep]
  cases lz <;> rfl

theorem failsPred (p : Char → Bool) (t : List Char)
    (h : ∀ c ∈ t, p c = false) : FailsOn (.pred p) t := by
  intro pre k
  rw [matchRe_pred]
  cases hd : t.drop k with
  | nil => rfl
  | cons c cs =>
    have hcd : c ∈ List.drop k t := by
      rw [hd]
      simp
    have hc : c ∈ t := List.mem_of_mem_drop hcd
    have hpc : p c = false := h c hc
    simp [hpc]

/-- Concatenation of a pattern list fails if any element fails. -/
theorem failsReSeq (t : List Char) : ∀ (l : List Re) (r : Re), r ∈ l →
    FailsOn r t → FailsOn (reSeq l) t := by
  intro l
  induction l with
  | nil => intro r hr; simp at hr
  | cons q qs ih =>
    intro r hr h
    rcases List.mem_cons.1 hr with he | he
    · subst he
      exact failsSeqL r (reSeq qs) t h
    · exact failsSeqR q (reSeq qs) t (ih r he h)

theorem rep2_fails (s pre : List Char) (h : twoDigitsAt s = false) :
    matchRe (.rep (.pred Char.isDigit) 2 (some 2) false) pre s = [] := by
  cases s with
  | nil =>
    rw [matchRe_rep]
    simp [repStop, repDeeper, matchRe_pred]
  | cons a s2 =>
    cases s2 with
    | nil =>
      rw [matchRe_rep]
      by_cases ha : a.isDigit = true <;>
        simp [repStop, repDeeper, matchRe_pred, matchRe_rep, ha]
    | cons b r =>
      rw [matchRe_rep]
      by_cases ha : a.isDigit = true
      · have hb : b.isDigit = false := by
          simp only [twoDigitsAt, ha, Bool.true_and] at h
          exact h
        simp [repStop, repDeeper, matchRe_pred, matchRe_rep, ha, hb]
      · simp [repStop, repDeeper, matchRe_pred, ha]

theorem decTok_head (t : List Char) (k : Nat) (c : Char) (cs : List Char)
    (hd : t.drop k = c :: cs) (hc : c = '.') (h : hasDecToken t = false) :
    twoDigitsAt cs = false := by
  cases cs with
  | nil => rfl
  | cons a cs2 =>
    cases cs2 with
    | nil => rfl
    | cons b r =>
      by_cases hab : (a.isDigit && b.isDigit) = true
      · exfalso
        have hdt : hasDecToken (t.drop k) = true := by
          rw [hd]
          unfold hasDecToken
          simp [twoDigitsAt, hc, hab]
        rw [hasDecToken_drop t k hdt] at h
        exact Bool.noConfusion h
      · simpa [twoDigitsAt] using hab

/-- Without a `.DD` token, the common trailing factor of every amount
pattern matches nowhere. -/
theorem noDec_failsTail (t : List Char) (h : hasDecToken t = false) :
    FailsOn numTail t := by
  intro pre k
  unfold numTail chRe
  rw [matchRe_seq]
  apply flatMapNil
  intro x hx
  rw [matchRe_pred] at hx
  cases hd : t.drop k with
  | nil =>
    rw [hd] at hx
    simp at hx
  | cons c cs =>
    rw [hd] at hx
    replace hx : x ∈ (if decide (c = '.') = true then [(c :: pre, cs, ([] : Caps))] else []) := hx
    by_cases hc : (c = '.')
    · rw [if_pos (by simp [hc])] at hx
      simp only [List.mem_singleton] at hx
      have hcs := decTok_head t k c cs hd hc h
      have hrep := rep2_fails cs (c :: pre) hcs
      subst hx
      by_cases hl : cs.length ≤ (c :: cs).length
      · rw [if_pos hl]
        unfold repN dRe
        rw [hrep]
        rfl
      · rw [if_neg hl]
    · rw [if_neg (by simp [hc])] at hx
      simp at hx

theorem noDec_failsNumG (t : List Char) (h : hasDecToken t = false) (i : Nat) :
    FailsOn (numG i) t :=
  failsGrp i numBody t (failsSeqR _ numTail t (noDec_failsTail t h))

theorem noDec_failsStrict (t : List Char) (h : hasDecToken t = false) :
    FailsOn strictBody t :=
  failsSeqR _ _ t (failsSeqR _ numTail t (noDec_failsTail t h))

theorem failsOn_searchAux (r : Re) (t : List Char) (h : FailsOn r t) :
    ∀ (s pre : List Char) (k : Nat), s = t.drop k → searchAux r pre s = none := by
  intro s
  induction s with
  | nil =>
    intro pre k hk
    have hm : matchRe r pre [] = [] := by rw [hk]; exact h pre k
    rw [searchAux_step, hm]
  | cons c cs ih =>
    intro pre k hk
    have hm : matchRe r pre (c :: cs) = [] := by rw [hk]; exact h pre k
    have hcs : cs = t.drop (k + 1) := by
      have h2 := congrArg List.tail hk
      simpa [List.tail_drop] using h2
    rw [searchAux_step, hm]
    exact ih (c :: pre) (k + 1) hcs

theorem failsOn_findallAux (r : Re) (t : List Char) (h : FailsOn r t) :
    findallAux r [] t = [] := by
  rw [findallAux_step, failsOn_searchAux r t h t [] 0 (by simp)]

theorem failsOn_findall1 (r : Re) (t : List Char) (h : FailsOn r t) :
    findall1 r t = [] := by
  unfold findall1
  rw [failsOn_findallAux r t h]
  rfl

theorem failsOn_findallC (r : Re) (t : List Char) (h : FailsOn r t) :
    findallC r t = [] := by
  unfold findallC
  exact failsOn_findallAux r t h

theorem noDec_failsAmountPatterns (t : List Char) (h : hasDecToken t = false) :
    ∀ p ∈ amount_patterns, findall1 p t = [] := by
  have hng : FailsOn (numG 1) t := noDec_failsNumG t h 1
  intro p hp
  apply failsOn_findall1
  simp only [amount_patterns, List.mem_cons, List.not_mem_nil, or_false] at hp
  rcases hp with rfl | rfl | rfl | rfl | rfl | rfl | rfl | rfl | rfl <;>
    exact failsReSeq t _ (numG 1) (by simp) hng

theorem tryAmountPatterns_none (t : List Char) : ∀ ps : List Re,
    (∀ p ∈ ps, findall1 p t = []) → tryAmountPatterns ps t = none := by
  intro ps
  induction ps with
  | nil => intro _; rfl
  | cons p rest ih =>
    intro hall
    unfold tryAmountPatterns
    rw [hall p (by simp)]
    exact ih (fun q hq => hall q (by simp [hq]))

theorem noDec_tryTable_none (t : List Char) (h : hasDecToken t = false) :
    tryTable t = none := by
  have hng : FailsOn (numG 1) t := noDec_failsNumG t h 1
  unfold tryTable
  rw [failsOn_findallC table_pattern1 t
    (failsReSeq t _ (numG 1) (by simp [table_pattern1]) hng)]
  rw [failsOn_findall1 table_pattern2 t
    (failsReSeq t _ (numG 1) (by simp [table_pattern2]) hng)]

theorem noDec_tryFallback_none (t : List Char) (h : hasDecToken t = false) :
    tryFallback t = none := by
  have hng : FailsOn (numG 1) t := noDec_failsNumG t h 1
  unfold tryFallback
  rw [failsOn_findall1 fb1 t (failsReSeq t _ (numG 1) (by simp [fb1]) hng)]
  rw [failsOn_findall1 fb2 t (failsReSeq t _ (numG 1) (by simp [fb2]) hng)]
  rw [failsOn_findall1 fb3 t (failsReSeq t _ (numG 1) (by simp [fb3]) hng)]
  rw [failsOn_findallC fb_sum t (failsReSeq t _ (numG 1) (by simp [fb_sum]) hng)]
  rw [failsOn_findall1 fb5 t (failsReSeq t _ (numG 1) (by simp [fb5]) hng)]
  rw [failsOn_findall1 fb6 t (failsReSeq t _ (numG 1) (by simp [fb6]) hng)]

/-- Claim C5: `extract_amount_from_pdf` is total (the model is a function and
the source catches every internal exception, including the `re.error` its
seventh fallback pattern raises), and on any text with no decimal-formatted
number — no digit pair after a decimal point anywhere — every tier misses
and the zero-cent sentinel `Decimal('0.00')` is returned. -/
theorem C5_zero_sentinel (t : String) (h : hasDecToken t.data = false) :
    extract_amount_from_pdf t = 0 := by
  unfold extract_amount_from_pdf
  by_cases he : t.data = []
  · rw [if_pos he]
  · rw [if_neg he,
      tryAmountPatterns_none t.data amount_patterns (noDec_failsAmountPatterns t.data h),
      noDec_tryTable_none t.data h, noDec_tryFallback_none t.data h]

/-- Witness for C5: a labeled text without any decimal number. -/
theorem C5_zero_sentinel_witness : extract_amount_from_pdf "价税合计：无金额" = 0 :=
  C5_zero_sentinel "价税合计：无金额" (by decide)

/-! ### Claim C4: exact value of a labelled amount

The claim quantifies over "valid decimal strings `d` matching
`D{1,3}(,DDD)*\.DD`"; the shape is formalised by the recogniser
`validAmount` below (spec-side definition, to be compared with the
source-side extractor). -/

/-- Recogniser for `(,DDD)*\.DD`, the part of the amount shape after the
leading digit group. -/
def validTail : List Char → Bool
  | c :: a :: b :: [] => (c = '.') && a.isDigit && b.isDigit
  | c :: a :: b :: e :: rest =>
      (c = ',') && a.isDigit && b.isDigit && e.isDigit && validTail rest
  | _ => false

/-- Third leading digit then the tail. -/
def vA3 : List Char → Bool
  | c :: rest => c.isDigit && validTail rest
  | [] => false

/-- Second leading digit, then the tail or a third digit. -/
def vA2 : List Char → Bool
  | c :: rest => c.isDigit && (validTail rest || vA3 rest)
  | [] => false

/-- The spec's amount shape `[0-9]{1,3}(,[0-9]{3})*\.[0-9]{2}`. -/
def validAmount : List Char → Bool
  | c :: rest => c.isDigit && (validTail rest || vA2 rest)
  | [] => false

theorem validTail_shape_aux (n : Nat) : ∀ s : List Char, s.length ≤ n →
    validTail s = true →
    ∃ mid a b, s = mid ++ '.' :: a :: b :: [] ∧
      (∀ x ∈ mid, (x.isDigit || x = ',') = true) ∧
      a.isDigit = true ∧ b.isDigit = true := by
  induction n with
  | zero =>
    intro s hl h
    cases s with
    | nil => exact absurd h (by simp [validTail])
    | cons c t => simp at hl
  | succ m ih =>
    intro s hl h
    match s with
    | [] => exact absurd h (by simp [validTail])
    | [c] => exact absurd h (by simp [validTail])
    | [c, a] => exact absurd h (by simp [validTail])
    | [c, a, b] =>
      simp only [validTail, Bool.and_eq_true, decide_eq_true_eq] at h
      obtain ⟨⟨hc, ha⟩, hb⟩ := h
      subst hc
      exact ⟨[], a, b, rfl, by simp, ha, hb⟩
    | c :: a :: b :: e :: rest =>
      simp only [validTail, Bool.and_eq_true, decide_eq_true_eq] at h
      obtain ⟨⟨⟨⟨hc, ha⟩, hb⟩, he⟩, ht⟩ := h
      subst hc
      obtain ⟨mid, x, y, hrest, hmid, hx, hy⟩ :=
        ih rest (by simp at hl ⊢; omega) ht
      refine ⟨',' :: a :: b :: e :: mid, x, y, by rw [hrest]; rfl, ?_, hx, hy⟩
      intro z hz
      simp only [List.mem_cons] at hz
      rcases hz with rfl | rfl | rfl | rfl | hz
      · simp
      · simp [ha]
      · simp [hb]
      · simp [he]
      · exact hmid z hz

theorem validTail_shape (s : List Char) (h : validTail s = true) :
    ∃ mid a b, s = mid ++ '.' :: a :: b :: [] ∧
      (∀ x ∈ mid, (x.isDigit || x = ',') = true) ∧
      a.isDigit = true ∧ b.isDigit = true :=
  validTail_shape_aux s.length s (Nat.le_refl _) h

/-- A valid amount is a nonempty run of digits and commas, headed by a digit,
followed by a dot and exactly two digits. -/
theorem validAmount_shape (s : List Char) (h : validAmount s = true) :
    ∃ c I a b, s = (c :: I) ++ '.' :: a :: b :: [] ∧ c.isDigit = true ∧
      (∀ x ∈ I, (x.isDigit || x = ',') = true) ∧
      a.isDigit = true ∧ b.isDigit = true := by
  cases s with
  | nil => exact absurd h (by simp [validAmount])
  | cons c rest =>
    simp only [validAmount, Bool.and_eq_true, Bool.or_eq_true] at h
    obtain ⟨hc, h⟩ := h
    rcases h with ht | h2
    · obtain ⟨mid, a, b, he, hmid, ha, hb⟩ := validTail_shape rest ht
      exact ⟨c, mid, a, b, by rw [he]; rfl, hc, hmid, ha, hb⟩
    · cases rest with
      | nil => exact absurd h2 (by simp [vA2])
      | cons c2 r2 =>
        simp only [vA2, Bool.and_eq_true, Bool.or_eq_true] at h2
        obtain ⟨hc2, h2⟩ := h2
        rcases h2 with ht | h3
        · obtain ⟨mid, a, b, he, hmid, ha, hb⟩ := validTail_shape r2 ht
          refine ⟨c, c2 :: mid, a, b, by rw [he]; rfl, hc, ?_, ha, hb⟩
          intro z hz
          rcases List.mem_cons.mp hz with rfl | hz
          · simp [hc2]
          · exact hmid z hz
        · cases r2 with
          | nil => exact absurd h3 (by simp [vA3])
          | cons c3 r3 =>
            simp only [vA3, Bool.and_eq_true] at h3
            obtain ⟨hc3, ht⟩ := h3
            obtain ⟨mid, a, b, he, hmid, ha, hb⟩ := validTail_shape r3 ht
            refine ⟨c, c2 :: c3 :: mid, a, b, by rw [he]; rfl, hc, ?_, ha, hb⟩
            intro z hz
            rcases List.mem_cons.mp hz with rfl | hz
            · simp [hc2]
            rcases List.mem_cons.mp hz with rfl | hz
            · simp [hc3]
            · exact hmid z hz

/-! Head tracking: the first element of a priority-ordered match list, which
is the match `re.search` and `re.findall` report. -/

theorem matchRe_repG (a : Re) (lo : Nat) (hi : Option Nat) (pre inp : List Char) :
    matchRe (.rep a lo hi false) pre inp =
      repDeeper a lo hi false pre inp ++ repStop lo pre inp := by
  rw [matchRe_rep, if_neg (by simp)]

theorem strRe_cons (c : Char) (cs : List Char) :
    strRe (c :: cs) = .seq (chRe c) (strRe cs) := rfl

theorem strRe_match (s : List Char) : ∀ (pre rest : List Char),
    matchRe (strRe s) pre (s ++ rest) = [(s.reverse ++ pre, rest, [])] := by
  induction s with
  | nil => intro pre rest; rfl
  | cons c cs ih =>
    intro pre rest
    rw [strRe_cons, show (c :: cs) ++ rest = c :: (cs ++ rest) from rfl,
        matchRe_seq]
    rw [show matchRe (chRe c) pre (c :: (cs ++ rest))
        = [(c :: pre, cs ++ rest, [])] from by
      rw [show chRe c = Re.pred (fun x => decide (x = c)) from rfl, matchRe_pred]
      simp]
    simp only [List.flatMap_cons, List.flatMap_nil, List.append_nil]
    rw [if_pos (by simp), ih (c :: pre) rest]
    simp

theorem strRe_failHead (c : Char) (cs pre : List Char) (x : Char)
    (xs : List Char) (hx : x ≠ c) :
    matchRe (strRe (c :: cs)) pre (x :: xs) = [] := by
  rw [strRe_cons, matchRe_seq]
  simp [chRe, matchRe_pred, hx]

theorem seqHead {a b : Re} {pre inp : List Char}
    {x y : List Char × List Char × Caps}
    {ta tb : List (List Char × List Char × Caps)}
    (hA : matchRe a pre inp = x :: ta) (hL : x.2.1.length ≤ inp.length)
    (hB : matchRe b x.1 x.2.1 = y :: tb) :
    ∃ tl, matchRe (.seq a b) pre inp = (y.1, y.2.1, x.2.2 ++ y.2.2) :: tl := by
  rw [matchRe_seq, hA]
  simp only [List.flatMap_cons]
  rw [if_pos hL, hB]
  simp only [List.map_cons, List.cons_append]
  exact ⟨_, rfl⟩

theorem grpHead (i : Nat) {a : Re} {pre inp : List Char}
    {x : List Char × List Char × Caps} {ta : List (List Char × List Char × Caps)}
    (h : matchRe a pre inp = x :: ta) :
    ∃ tl, matchRe (.grp i a) pre inp
      = (x.1, x.2.1, x.2.2 ++ [(i, inp.take (inp.length - x.2.1.length))]) :: tl := by
  rw [matchRe_grp, h]
  exact ⟨_, rfl⟩

/-- A greedy repetition with `lo = 0` whose single-character body refuses the
head of the input matches exactly the empty string. -/
theorem repFailBody (p : Char → Bool) (hi : Option Nat) (pre inp : List Char)
    (hhi : hi ≠ some 0)
    (hf : ∀ c cs, inp = c :: cs → p c = false) :
    matchRe (.rep (.pred p) 0 hi false) pre inp = [(pre, inp, [])] := by
  rw [matchRe_repG]
  unfold repDeeper repStop
  rw [if_neg hhi]
  cases inp with
  | nil => simp [matchRe_pred]
  | cons c cs => simp [matchRe_pred, hf c cs rfl]

/-- Maximal munch of a greedy unbounded star over a single-character class:
the head of the match list consumes the whole run. -/
theorem star0Max (p : Char → Bool) : ∀ (I pre rest : List Char),
    (∀ c ∈ I, p c = true) → (∀ c cs, rest = c :: cs → p c = false) →
    ∃ tl, matchRe (.rep (.pred p) 0 none false) pre (I ++ rest)
      = (I.reverse ++ pre, rest, []) :: tl := by
  intro I
  induction I with
  | nil =>
    intro pre rest _ hrest
    refine ⟨[], ?_⟩
    simp only [List.nil_append, List.reverse_nil]
    exact repFailBody p none pre rest (by simp) hrest
  | cons c I' ih =>
    intro pre rest hI hrest
    obtain ⟨tl', htl'⟩ :=
      ih (c :: pre) rest (fun z hz => hI z (List.mem_cons_of_mem c hz)) hrest
    have hc : p c = true := hI c (List.mem_cons_self c I')
    rw [show (c :: I') ++ rest = c :: (I' ++ rest) from rfl, matchRe_repG]
    unfold repDeeper
    rw [if_neg (by simp), matchRe_pred]
    simp only [hc, if_true, List.flatMap_cons, List.flatMap_nil, List.append_nil]
    rw [if_pos (by simp)]
    simp only [Nat.zero_sub, Option.map_none', htl']
    refine ⟨List.map (fun y => (y.1, y.2.1, ([] : Caps) ++ y.2.2)) tl'
      ++ repStop 0 pre (c :: (I' ++ rest)), ?_⟩
    simp only [List.map_cons, List.cons_append]
    congr 1
    simp

/-- Maximal munch for the greedy `+` of a single-character class. -/
theorem plus1Max (p : Char → Bool) (c : Char) (I' pre rest : List Char)
    (hc : p c = true) (hI : ∀ x ∈ I', p x = true)
    (hrest : ∀ y ys, rest = y :: ys → p y = false) :
    ∃ tl, matchRe (.rep (.pred p) 1 none false) pre ((c :: I') ++ rest)
      = ((c :: I').reverse ++ pre, rest, []) :: tl := by
  obtain ⟨tl', htl'⟩ := star0Max p I' (c :: pre) rest hI hrest
  rw [show (c :: I') ++ rest = c :: (I' ++ rest) from rfl, matchRe_repG]
  unfold repDeeper
  rw [if_neg (by simp), matchRe_pred]
  simp only [hc, if_true, List.flatMap_cons, List.flatMap_nil, List.append_nil]
  rw [if_pos (by simp)]
  simp only [Nat.sub_self, Option.map_none', htl']
  unfold repStop
  rw [if_neg (by simp)]
  refine ⟨List.map (fun y => (y.1, y.2.1, ([] : Caps) ++ y.2.2)) tl' ++ [], ?_⟩
  simp only [List.map_cons, List.cons_append]
  congr 1
  simp

/-- An exactly-two repetition of a single-character class consumes exactly two
accepted characters. -/
theorem rep22 (p : Char → Bool) (a b : Char) (pre rest : List Char)
    (ha : p a = true) (hb : p b = true) :
    matchRe (.rep (.pred p) 2 (some 2) false) pre (a :: b :: rest)
      = [(b :: a :: pre, rest, [])] := by
  have h0 : matchRe (.rep (.pred p) 0 (some 0) false) (b :: a :: pre) rest
      = [(b :: a :: pre, rest, [])] := by
    rw [matchRe_repG]
    unfold repDeeper repStop
    rw [if_pos rfl, if_pos rfl]
    rfl
  have h1 : matchRe (.rep (.pred p) 1 (some 1) false) (a :: pre) (b :: rest)
      = [(b :: a :: pre, rest, [])] := by
    rw [matchRe_repG]
    unfold repDeeper
    rw [if_neg (by simp), matchRe_pred]
    simp only [hb, if_true, List.flatMap_cons, List.flatMap_nil, List.append_nil]
    rw [if_pos (by simp)]
    simp only [show (1 : Nat) - 1 = 0 from rfl,
      show Option.map (· - 1) (some 1) = some 0 from rfl, h0]
    unfold repStop
    rw [if_neg (by simp)]
    simp
  rw [matchRe_repG]
  unfold repDeeper
  rw [if_neg (by simp), matchRe_pred]
  simp only [ha, if_true, List.flatMap_cons, List.flatMap_nil, List.append_nil]
  rw [if_pos (by simp)]
  simp only [show (2 : Nat) - 1 = 1 from rfl,
    show Option.map (· - 1) (some 2) = some 1 from rfl, h1]
  unfold repStop
  rw [if_neg (by simp)]
  simp

theorem take_len_sub (u v : List Char) :
    (u ++ v).take ((u ++ v).length - v.length) = u := by
  rw [List.length_append, Nat.add_sub_cancel, List.take_left]

theorem len_le_append (u v : List Char) : v.length ≤ (u ++ v).length := by
  simp

theorem digit_not_space (c : Char) (h : c.isDigit = true) :
    isSpaceChar c = false := by
  by_cases hs : isSpaceChar c = true
  · exfalso
    simp only [isSpaceChar, Bool.or_eq_true, decide_eq_true_eq] at hs
    rcases hs with ((((rfl | rfl) | rfl) | rfl) | rfl) | rfl <;>
      exact absurd h (by decide)
  · simpa using hs

theorem digit_ne_char (c e : Char) (h : c.isDigit = true)
    (he : e.isDigit = false) : decide (c = e) = false := by
  by_cases hce : c = e
  · subst hce; rw [h] at he; exact Bool.noConfusion he
  · simp [hce]

/-- The first tier-1 pattern cannot match at a position whose first character
is not the label head `价`. -/
theorem ap1_failHead (pre : List Char) (x : Char) (xs : List Char)
    (hx : x ≠ '价') :
    matchRe (reSeq [strRe "价税合计".data, colonRe, wsStar, opt (chRe '￥'),
        wsStar, numG 1]) pre (x :: xs) = [] := by
  rw [show reSeq [strRe "价税合计".data, colonRe, wsStar, opt (chRe '￥'),
        wsStar, numG 1]
      = .seq (strRe ('价' :: "税合计".data))
          (reSeq [colonRe, wsStar, opt (chRe '￥'), wsStar, numG 1]) from rfl,
      matchRe_seq, strRe_failHead '价' "税合计".data pre x xs hx]
  rfl

/-- At the label position, the head of the first tier-1 pattern's match list
captures exactly the leading amount-shaped token: the greedy digit-and-comma
run followed by the dot and two digits, stopping there whatever follows. -/
theorem ap1_head (pre2 : List Char) (c : Char) (I : List Char) (a b : Char)
    (post : List Char) (hc : c.isDigit = true)
    (hI : ∀ x ∈ I, (x.isDigit || x = ',') = true)
    (ha : a.isDigit = true) (hb : b.isDigit = true) :
    ∃ x tl,
      matchRe (reSeq [strRe "价税合计".data, colonRe, wsStar, opt (chRe '￥'),
          wsStar, numG 1])
        pre2 ("价税合计".data ++ '：' :: ((c :: I) ++ '.' :: a :: b :: post))
      = (x, post, [(1, (c :: I) ++ '.' :: a :: b :: [])]) :: tl := by
  have hdot : ∀ y ys, ('.' :: a :: b :: post) = y :: ys →
      (y.isDigit || decide (y = ',')) = false := by
    intro y ys hy
    injection hy with h1 _
    rw [← h1]
    decide
  obtain ⟨tlP, hplus⟩ := plus1Max (fun ch => ch.isDigit || decide (ch = ',')) c I
      ('：' :: ("价税合计".data.reverse ++ pre2)) ('.' :: a :: b :: post)
      (by simp [hc]) (fun z hz => hI z hz) hdot
  have htail : matchRe numTail
      ((c :: I).reverse ++ '：' :: ("价税合计".data.reverse ++ pre2))
      ('.' :: a :: b :: post)
      = [(b :: a :: '.' ::
          ((c :: I).reverse ++ '：' :: ("价税合计".data.reverse ++ pre2)),
         post, [])] := by
    rw [show numTail = Re.seq (Re.pred (fun x => decide (x = '.')))
        (Re.rep (Re.pred Char.isDigit) 2 (some 2) false) from rfl, matchRe_seq]
    rw [show matchRe (Re.pred (fun x => decide (x = '.')))
        ((c :: I).reverse ++ '：' :: ("价税合计".data.reverse ++ pre2))
        ('.' :: a :: b :: post)
        = [('.' :: ((c :: I).reverse ++ '：' :: ("价税合计".data.reverse ++ pre2)),
            a :: b :: post, [])] from by
      rw [matchRe_pred]; simp]
    simp only [List.flatMap_cons, List.flatMap_nil, List.append_nil]
    rw [if_pos (by simp), rep22 Char.isDigit a b _ post ha hb]
    simp
  obtain ⟨tlB, hbody⟩ := seqHead hplus (len_le_append _ _) htail
  obtain ⟨tlG, hgrp0⟩ := grpHead 1 hbody
  have hcap : ((c :: I) ++ '.' :: a :: b :: post).take
      (((c :: I) ++ '.' :: a :: b :: post).length - post.length)
      = (c :: I) ++ '.' :: a :: b :: [] := by
    rw [show (c :: I) ++ '.' :: a :: b :: post
        = ((c :: I) ++ '.' :: a :: b :: []) ++ post from by simp, take_len_sub]
  have hgrp : matchRe (numG 1)
      ('：' :: ("价税合计".data.reverse ++ pre2))
      ((c :: I) ++ '.' :: a :: b :: post)
      = (b :: a :: '.' ::
          ((c :: I).reverse ++ '：' :: ("价税合计".data.reverse ++ pre2)),
         post,
         [] ++ [(1, ((c :: I) ++ '.' :: a :: b :: post).take
            (((c :: I) ++ '.' :: a :: b :: post).length - post.length))]) :: tlG :=
    hgrp0
  rw [hcap] at hgrp
  simp only [List.nil_append] at hgrp
  have hws : matchRe wsStar ('：' :: ("价税合计".data.reverse ++ pre2))
      ((c :: I) ++ '.' :: a :: b :: post)
      = [('：' :: ("价税合计".data.reverse ++ pre2),
          (c :: I) ++ '.' :: a :: b :: post, [])] :=
    repFailBody isSpaceChar none _ _ (by simp) (fun y ys hy => by
      rw [show (c :: I) ++ '.' :: a :: b :: post
          = c :: (I ++ '.' :: a :: b :: post) from rfl] at hy
      injection hy with h1 _
      rw [← h1]
      exact digit_not_space c hc)
  have hopt : matchRe (opt (chRe '￥'))
      ('：' :: ("价税合计".data.reverse ++ pre2))
      ((c :: I) ++ '.' :: a :: b :: post)
      = [('：' :: ("价税合计".data.reverse ++ pre2),
          (c :: I) ++ '.' :: a :: b :: post, [])] :=
    repFailBody (fun x => decide (x = '￥')) (some 1) _ _ (by simp)
      (fun y ys hy => by
        rw [show (c :: I) ++ '.' :: a :: b :: post
            = c :: (I ++ '.' :: a :: b :: post) from rfl] at hy
        injection hy with h1 _
        rw [← h1]
        exact digit_ne_char c '￥' hc (by decide))
  have hcol : matchRe colonRe ("价税合计".data.reverse ++ pre2)
      ('：' :: ((c :: I) ++ '.' :: a :: b :: post))
      = [('：' :: ("价税合计".data.reverse ++ pre2),
          (c :: I) ++ '.' :: a :: b :: post, [])] := by
    rw [show colonRe = Re.pred (fun ch => List.contains ['：', ':'] ch) from rfl,
        matchRe_pred]
    rfl
  have hlbl : matchRe (strRe "价税合计".data) pre2
      ("价税合计".data ++ '：' :: ((c :: I) ++ '.' :: a :: b :: post))
      = [("价税合计".data.reverse ++ pre2,
          '：' :: ((c :: I) ++ '.' :: a :: b :: post), [])] :=
    strRe_match "价税合计".data pre2 ('：' :: ((c :: I) ++ '.' :: a :: b :: post))
  obtain ⟨tl6, h6⟩ := seqHead hgrp
    (show post.length ≤ ((c :: I) ++ '.' :: a :: b :: post).length by
      simp only [List.length_append, List.length_cons]; omega)
    (matchRe_eps _ _)
  obtain ⟨tl5, h5⟩ := seqHead hws le_rfl h6
  obtain ⟨tl4, h4⟩ := seqHead hopt le_rfl h5
  obtain ⟨tl3, h3⟩ := seqHead hws le_rfl h4
  obtain ⟨tl2, h2⟩ := seqHead hcol (by simp) h3
  obtain ⟨tl1, h1⟩ := seqHead hlbl (len_le_append _ _) h2
  exact ⟨_, tl1, h1⟩

/-- `re.search` scans left to right: a position whose head character refuses
the pattern is skipped. -/
theorem searchAux_skip (r : Re)
    (hf : ∀ (pre : List Char) (x : Char) (xs : List Char), x ≠ '价' →
      matchRe r pre (x :: xs) = []) :
    ∀ (P rest pre : List Char), (∀ c ∈ P, c ≠ '价') →
      searchAux r pre (P ++ rest) = searchAux r (P.reverse ++ pre) rest := by
  intro P
  induction P with
  | nil => intro rest pre _; simp
  | cons c cs ih =>
    intro rest pre hP
    rw [show (c :: cs) ++ rest = c :: (cs ++ rest) from rfl, searchAux_step,
        hf pre c (cs ++ rest) (hP c (List.mem_cons_self c cs))]
    show searchAux r (c :: pre) (cs ++ rest) = _
    rw [ih rest (c :: pre) (fun z hz => hP z (List.mem_cons_of_mem c hz)),
        show (c :: cs).reverse ++ pre = cs.reverse ++ (c :: pre) from by simp]

/-- The first capture reported by `findall1` is the one of the first search
hit. -/
theorem findall1_head {r : Re} {t start p2 rem : List Char} {caps : Caps}
    (hs : searchAux r [] t = some (start, p2, rem, caps)) :
    ∃ tl, findall1 r t = capGet caps 1 :: tl := by
  unfold findall1
  rw [findallAux_step r [] t, hs]
  exact ⟨_, rfl⟩

/-- Claim C4 (amended): for a valid decimal string `d` matching
`D{1,3}(,DDD)*\.DD` placed right after the first occurrence of the
`价税合计：` label — no `价` occurs earlier in the text — the extractor
returns exactly the decimal value of `d` with thousands-separator commas
stripped, in cents, whatever text follows; no rounding occurs.  (As frozen
the claim allows the label occurrence to be any one of several, which fails:
only the first match of the winning pattern is read, see the
counterexample.) -/
theorem C4_label_value (pre d post : String)
    (hv : validAmount d.data = true) (hp : '价' ∉ pre.data) :
    extract_amount_from_pdf (pre ++ "价税合计：" ++ d ++ post)
      = pyDecimalCents (stripCommas d.data) := by
  obtain ⟨c, I, a, b, hd, hc, hI, ha, hb⟩ := validAmount_shape d.data hv
  have hpre : ∀ z ∈ pre.data, z ≠ '价' := fun z hz he => hp (he ▸ hz)
  have hL5 : "价税合计：".data = '价' :: '税' :: '合' :: '计' :: '：' :: [] := rfl
  have hL4 : "价税合计".data = '价' :: '税' :: '合' :: '计' :: [] := rfl
  have hT : (pre ++ "价税合计：" ++ d ++ post).data
      = pre.data ++
          ("价税合计".data ++ '：' :: ((c :: I) ++ '.' :: a :: b :: post.data)) := by
    simp [String.data_append, hd, hL5, hL4, List.append_assoc]
  obtain ⟨x1, tl1, hm⟩ := ap1_head (pre.data.reverse ++ []) c I a b post.data hc hI ha hb
  have hs2 : searchAux (reSeq [strRe "价税合计".data, colonRe, wsStar,
        opt (chRe '￥'), wsStar, numG 1]) (pre.data.reverse ++ [])
      ("价税合计".data ++ '：' :: ((c :: I) ++ '.' :: a :: b :: post.data))
      = some ("价税合计".data ++ '：' :: ((c :: I) ++ '.' :: a :: b :: post.data),
              x1, post.data, [(1, (c :: I) ++ '.' :: a :: b :: [])]) := by
    rw [searchAux_step, hm]
  have hs : searchAux (reSeq [strRe "价税合计".data, colonRe, wsStar,
        opt (chRe '￥'), wsStar, numG 1]) []
      (pre.data ++
        ("价税合计".data ++ '：' :: ((c :: I) ++ '.' :: a :: b :: post.data)))
      = some ("价税合计".data ++ '：' :: ((c :: I) ++ '.' :: a :: b :: post.data),
              x1, post.data, [(1, (c :: I) ++ '.' :: a :: b :: [])]) := by
    rw [searchAux_skip _ (fun p x xs hx => ap1_failHead p x xs hx)
        pre.data _ [] hpre, hs2]
  obtain ⟨tlf, hfa⟩ := findall1_head hs
  rw [show capGet [(1, (c :: I) ++ '.' :: a :: b :: [])] 1
      = (c :: I) ++ '.' :: a :: b :: [] from rfl] at hfa
  have hstep : tryAmountPatterns amount_patterns
      (pre.data ++
        ("价税合计".data ++ '：' :: ((c :: I) ++ '.' :: a :: b :: post.data)))
      = some (pyDecimalCents (stripCommas ((c :: I) ++ '.' :: a :: b :: []))) := by
    have hunf : tryAmountPatterns amount_patterns
        (pre.data ++
          ("价税合计".data ++ '：' :: ((c :: I) ++ '.' :: a :: b :: post.data)))
        = match findall1 (reSeq [strRe "价税合计".data, colonRe, wsStar,
              opt (chRe '￥'), wsStar, numG 1])
            (pre.data ++
              ("价税合计".data ++ '：' :: ((c :: I) ++ '.' :: a :: b :: post.data))) with
          | [] => tryAmountPatterns amount_patterns.tail
              (pre.data ++
                ("价税合计".data ++ '：' :: ((c :: I) ++ '.' :: a :: b :: post.data)))
          | m :: _ => some (pyDecimalCents (stripCommas m)) := rfl
    rw [hunf, hfa]
  unfold extract_amount_from_pdf
  rw [hT, if_neg (by simp), hstep, hd]

/-- Witness for the amended C4: a comma-grouped amount after the label, with
leading and trailing context. -/
theorem C4_label_value_witness :
    validAmount "1,234.56".data = true ∧ '价' ∉ "金额".data ∧
    extract_amount_from_pdf ("金额" ++ "价税合计：" ++ "1,234.56" ++ "元")
      = pyDecimalCents (stripCommas "1,234.56".data) :=
  ⟨by decide, by decide,
   C4_label_value "金额" "1,234.56" "元" (by decide) (by decide)⟩

/-- Counterexample to C4 as frozen: `2.00` is a valid decimal string and
appears right after a `价税合计` label, yet the extractor returns `1.00`
(100 cents), the amount after the text's first label, not `2.00`
(200 cents): only the first match of the winning pattern is read. -/
theorem C4_counterexample :
    validAmount "2.00".data = true ∧
    extract_amount_from_pdf ("价税合计：1.00" ++ "价税合计：" ++ "2.00" ++ "")
      ≠ pyDecimalCents (stripCommas "2.00".data) := by
  constructor
  · decide
  · decide

end Fapiao
